import Mathlib

/-!
Verification development for the QIB-to-TranSMART batch converter
(`QIB2TBatch.py` / `QIBconverter.py`).

The Python source is shallowly embedded below.  Python dictionaries are
modelled as association lists with unique keys (`dictGet` / `dictSet`
reproduce lookup and insert-or-replace in insertion order), Python string
operations (`split`, `replace`, `join`, `lower`, substring test) are
re-implemented character-wise so that everything evaluates inside the
kernel, and Python exceptions (`KeyError`, `IndexError`, the caller-side
unpacking `ValueError`) are modelled with `Except PyError`.
-/

/-- Python exception kinds raised by the code paths modelled here. -/
inductive PyError where
  | keyError
  | indexError
  | valueError
  deriving DecidableEq, Repr

deriving instance DecidableEq for Except

/-- Python `dict` lookup (`d[k]` / `d.get(k)`): first (unique) matching key. -/
def dictGet {α : Type} : List (String × α) → String → Option α
  | [], _ => none
  | (k', v) :: rest, k => if k' = k then some v else dictGet rest k

/-- Python `dict` assignment `d[k] = v`: replaces in place, else appends
(insertion order preserved, keys unique). -/
def dictSet {α : Type} : List (String × α) → String → α → List (String × α)
  | [], k, v => [(k, v)]
  | (k', v') :: rest, k, v =>
      if k' = k then (k, v) :: rest else (k', v') :: dictSet rest k v

/-- Python `str.split(c)` for a single-character separator: splits on every
occurrence, keeping empty pieces (`"a__b".split("_") = ["a","","b"]`). -/
def pySplitAux (c : Char) : List Char → List Char → List String
  | [], acc => [String.mk acc.reverse]
  | x :: xs, acc =>
      if x = c then String.mk acc.reverse :: pySplitAux c xs []
      else pySplitAux c xs (x :: acc)

/-- Python `s.split(c)`. -/
def pySplit (s : String) (c : Char) : List String :=
  pySplitAux c s.toList []

/-- Python `sep.join(l)`. -/
def pyJoin (sep : String) : List String → String
  | [] => ""
  | [x] => x
  | x :: y :: xs => x ++ sep ++ pyJoin sep (y :: xs)

/-- Python `s.replace(a, b)` for single characters. -/
def pyReplaceChar (s : String) (a b : Char) : String :=
  String.mk (s.toList.map (fun c => if c = a then b else c))

/-- Python `s.lower()`. -/
def pyLower (s : String) : String :=
  String.mk (s.toList.map Char.toLower)

/-- Does `s` start with `pat` (on character lists)? -/
def charsStartWith : List Char → List Char → Bool
  | [], _ => true
  | _ :: _, [] => false
  | a :: as, b :: bs => a == b && charsStartWith as bs

/-- Does `pat` occur contiguously somewhere in `s` (on character lists)? -/
def charsContain (s pat : List Char) : Bool :=
  match s with
  | [] => charsStartWith pat []
  | _ :: rest => charsStartWith pat s || charsContain rest pat

/-- Python substring test `pat in s`. -/
def strContains (s pat : String) : Bool :=
  charsContain s.toList pat.toList

/-- Effectful map over a list, stopping at the first raised exception
(models Python's left-to-right evaluation of a list comprehension). -/
def exceptMap {α β ε : Type} (f : α → Except ε β) : List α → Except ε (List β)
  | [] => .ok []
  | a :: as =>
      match f a with
      | .error e => .error e
      | .ok b =>
          match exceptMap f as with
          | .error e => .error e
          | .ok bs => .ok (b :: bs)

/-- Effectful fold over a list, stopping at the first raised exception
(models a Python `for` loop whose body may raise). -/
def exceptFoldl {α β ε : Type} (f : α → β → Except ε α) (a : α) :
    List β → Except ε α
  | [] => .ok a
  | b :: bs =>
      match f a b with
      | .error e => .error e
      | .ok a' => exceptFoldl f a' bs

/-- Python truthiness of a string (empty string is falsy). -/
def truthyS (s : String) : Bool := s ≠ ""

/-- Python truthiness of an optional string (`None` and `""` are falsy). -/
def truthyO : Option String → Bool
  | none => false
  | some s => s ≠ ""

/-- Python `v or "Not specified"` applied to an attribute lookup result
(`QIB2TBatch.py` lines 427-428). -/
def pyOrNS : Option String → String
  | none => "Not specified"
  | some s => if s = "" then "Not specified" else s

/-! ## Data model

The xnatpy objects the converter reads are modelled structurally; the
repository client is a read-only data source (spec section 6).  A subject
lookup `project.subjects[subject.label]` returns the subject itself and
`subject_obj.experiments[experiment.label]` returns the experiment itself
(labels are the keys of those mappings), so both are modelled as the
identity and the collections as plain lists. -/

/-- One biomarker of a QIB biomarker category (id, value, ontology data). -/
structure Biomarker where
  id : String
  value : String
  ontology_name : String
  ontology_iri : String
  deriving DecidableEq, Repr

/-- A named group of biomarkers (`session.biomarker_categories[...]`). -/
structure BiomarkerCategory where
  category_name : String
  biomarkers : List Biomarker
  deriving DecidableEq, Repr

/-- A base-session back-reference exposing an accession identifier. -/
structure BaseSession where
  accession_identifier : String
  deriving DecidableEq, Repr

/-- An experiment reached through `project.experiments[...]`: its `_fields`
dictionary and the attributes served by `.get(...)` (absent attribute gives
`None`, not an exception). -/
structure XnatExperiment where
  fields : List (String × String)
  attrs : List (String × String)
  deriving DecidableEq, Repr

/-- A QIB session/experiment under a subject.  `analysis_tool` and
`analysis_tool_version` model `getattr(session, ...)` results (`none` is
Python `None`, falsy).  `tagAttrs` models `getattr(session, tag)` for the
configured tag names: a missing key raises `AttributeError` (modelled as
`none` from `dictGet`); a present falsy value is modelled as `""` (it is
skipped by the `if info_tag` guard exactly like `None`, and is never
rendered, so the two are indistinguishable in the output). -/
structure Session where
  label : String
  project : String
  analysis_tool : Option String
  analysis_tool_version : Option String
  tagAttrs : List (String × String)
  biomarker_categories : List BiomarkerCategory
  base_sessions : List BaseSession
  processing_end_date_time : String
  deriving DecidableEq, Repr

/-- A subject with its experiments. -/
structure Subject where
  label : String
  experiments : List Session
  deriving DecidableEq, Repr

/-- The XNAT project: its subjects and the `project.experiments` mapping. -/
structure Project where
  subjects : List Subject
  experimentsMap : List (String × XnatExperiment)
  deriving DecidableEq, Repr

/-- The configuration object fields the embedded functions read.
`patient_map` is the dictionary produced by `get_patient_mapping`. -/
structure Config where
  project_name : String
  tag_list : List String
  patient_map : List (String × String)
  deriving DecidableEq, Repr

/-- The session filter of `obtain_data` (line 145) and `check_if_updated`
(line 449): label contains "qib" case-insensitively and the experiment
belongs to the configured project. -/
def qualifies (cfg : Config) (e : Session) : Bool :=
  strContains (pyLower e.label) "qib" && e.project == cfg.project_name

/-! ## Update Detector (`check_if_updated`, lines 442-464) -/

/-- The `json_dict['session_list']` built by the scan loop: label to
`processing_end_date_time` for every qualifying session, in traversal
order. -/
def sessionTimestamps (cfg : Config) (subjects : List Subject) :
    List (String × String) :=
  subjects.foldl
    (fun d subj =>
      subj.experiments.foldl
        (fun d e =>
          if qualifies cfg e then dictSet d e.label e.processing_end_date_time
          else d)
        d)
    []

/-- The comparison loop (lines 458-460): for each current label, look the
label up in the snapshot (`data['session_list'][experiment_label]`, a
`KeyError` when absent) and latch `updated` when the timestamps differ. -/
def checkUpdatedLoop (snap : List (String × String)) :
    List (String × String) → Bool → Except PyError Bool
  | [], upd => .ok upd
  | (l, t) :: rest, upd =>
      match dictGet snap l with
      | none => .error .keyError
      | some t' => checkUpdatedLoop snap rest (upd || decide (¬ t' = t))

/-- `check_if_updated(project, config)`: `snapshot = none` models a missing
`config.timestamp_json_log` file (first run); `some snap` models the parsed
`session_list` of an existing snapshot.  (The rewrite of the snapshot file
is omitted: the claims under study concern only the returned boolean and
the raised exceptions.) -/
def check_if_updated (cfg : Config) (subjects : List Subject)
    (snapshot : Option (List (String × String))) : Except PyError Bool :=
  let current := sessionTimestamps cfg subjects
  match snapshot with
  | none => .ok false
  | some snap => checkUpdatedLoop snap current false

/-- Outcome of the update gate in `QIBconverter.main` (lines 76-79). -/
inductive GateOutcome where
  | exitNoNewData
  | proceedsToWrite
  | aborts (e : PyError)
  deriving DecidableEq, Repr

/-- The gate in `QIBconverter.main` (lines 76-79):
`continue_job = QIB2TBatch.check_if_updated(project, config)` followed by
`if continue_job: logger.info("No data added. Exiting"); sys.exit(9)`.
When the check returns `True` the run exits with status 9 (the
"no-new-data" signal); when it returns `False` the run falls through to
`create_dir`, `write_params`, `write_headers`, `obtain_data` and
`write_data`. -/
def mainUpdateGate (cfg : Config) (subjects : List Subject)
    (snapshot : Option (List (String × String))) : GateOutcome :=
  match check_if_updated cfg subjects snapshot with
  | .error e => .aborts e
  | .ok true => .exitNoNewData
  | .ok false => .proceedsToWrite

/-! ## Metadata Tag Writer (`write_project_metadata`, lines 282-317)

`tag_dict` is modelled by its key set (a list of unique keys in insertion
order): the stored values are never read by the code, only key membership
is tested. -/

/-- The tool-derived concept-key prefix (lines 297-304). -/
def toolConceptKey (s : Session) : String :=
  if truthyO s.analysis_tool && truthyO s.analysis_tool_version then
    s.analysis_tool.getD "" ++ " " ++ s.analysis_tool_version.getD ""
  else if truthyO s.analysis_tool then s.analysis_tool.getD ""
  else "Generic Tool"

/-- State of the tag loop of `write_project_metadata`: the weight counter
`i`, the `tag_dict` key set and the lines written to the tag file. -/
structure WpmSt where
  i : Nat
  tag_dict : List String
  lines : List String
  deriving DecidableEq, Repr

/-- The rendered metadata tag line of line 310:
`concept_key + "\t" + tag.replace('_', ' ') + "\t" + str(info_tag) + "\t"
+ str(i) + "\n"`. -/
def wpmLine (concept_key tag info_tag : String) (i : Nat) : String :=
  concept_key ++ "\t" ++ pyReplaceChar tag '_' ' ' ++ "\t" ++ info_tag ++
    "\t" ++ toString i ++ "\n"

/-- Truthiness of `getattr(session, tag)`: the attribute exists and its
value is truthy. -/
def attrTruthy (s : Session) (tag : String) : Bool :=
  match dictGet s.tagAttrs tag with
  | none => false
  | some v => truthyS v

/-- One iteration of `for tag in config.tag_list` (lines 306-316):
`getattr` raising `AttributeError` is `none` (logged, skipped); a falsy
value is skipped by `if info_tag`; otherwise the line is rendered with the
current weight, the weight is decremented, and the line is written only if
the key `concept_key + tag` is new. -/
def wpmStep (concept_key : String) (s : Session) (st : WpmSt) (tag : String) :
    WpmSt :=
  match dictGet s.tagAttrs tag with
  | none => st
  | some info_tag =>
      if truthyS info_tag then
        let line := wpmLine concept_key tag info_tag st.i
        let i' := st.i - 1
        if (concept_key ++ tag) ∈ st.tag_dict then ⟨i', st.tag_dict, st.lines⟩
        else ⟨i', st.tag_dict ++ [concept_key ++ tag], st.lines ++ [line]⟩
      else st

/-- `write_project_metadata(session, tag_file, tag_dict, config)`: returns
the concept-key prefix, the updated `tag_dict` key set and the lines
written to the tag file, in order. -/
def write_project_metadata (s : Session) (tag_dict : List String)
    (tag_list : List String) : String × List String × List String :=
  let concept_key := toolConceptKey s
  let st := tag_list.foldl (wpmStep concept_key s) ⟨tag_list.length, tag_dict, []⟩
  (concept_key, st.tag_dict, st.lines)

/-! ## Scanner Registry and session metadata (`get_session_data`,
lines 411-439) -/

/-- The `metadata` dictionary built by `get_session_data`, with its five
fixed keys. -/
structure Metadata where
  laterality : String
  timepoint : String
  scanner_model : String
  scanner_manufacturer : String
  scanner : String
  deriving DecidableEq, Repr

/-- The `metadata` dictionary as a key-value list in Python insertion
order (lines 423-424, 427-428, 431/435). -/
def metadataItems (m : Metadata) : List (String × String) :=
  [("laterality", m.laterality), ("timepoint", m.timepoint),
   ("scanner model", m.scanner_model),
   ("scanner manufacturer", m.scanner_manufacturer),
   ("scanner", m.scanner)]

/-- The scanner-label resolution of lines 429-438, on the already
placeholder-substituted manufacturer and model strings: look the
concatenation up in `scanner_dict` (a truthy value yields the stored
label); otherwise assign `len(scanner_dict) + 1`, append the new mapping
line to the lookup file and store it.  Returns the label, the updated
dictionary and the appended file lines.  Dictionary values are the
assigned numbers (written to and re-read from the lookup file as their
decimal strings). -/
def scanner_resolve (sd : List (String × Nat)) (ma mo : String) :
    String × List (String × Nat) × List String :=
  let scanner_name := ma ++ mo
  match dictGet sd scanner_name with
  | some n =>
      if n ≠ 0 then ("scanner" ++ toString n, sd, [])
      else
        let k := sd.length + 1
        ("scanner" ++ toString k, dictSet sd scanner_name k,
         [scanner_name ++ "\t" ++ toString k ++ "\n"])
  | none =>
      let k := sd.length + 1
      ("scanner" ++ toString k, dictSet sd scanner_name k,
       [scanner_name ++ "\t" ++ toString k ++ "\n"])

/-- Result of `get_session_data`. -/
structure GsdOut where
  metadata : Metadata
  scanner_dict : List (String × Nat)
  appended : List String
  deriving DecidableEq, Repr

/-- `get_session_data(label_list, project, sessions, scanner_dict, config)`
(lines 411-439).  The list comprehension over `sessions` raises `KeyError`
on a missing accession identifier; indexing `[0]` of the resulting list
raises `IndexError` when `sessions` is empty; `label_list[3]` and
`label_list[4]` are evaluated eagerly as the `.get` defaults and raise
`IndexError` on short labels; the second `project.experiments[...]` lookup
raises `KeyError` when absent.  The `or "Not specified"` substitutions and
the scanner lookup follow. -/
def get_session_data (label_list : List String) (proj : Project)
    (sessions : List BaseSession) (scanner_dict : List (String × Nat)) :
    Except PyError GsdOut :=
  match exceptMap (fun x =>
      match dictGet proj.experimentsMap x.accession_identifier with
      | some e => Except.ok e
      | none => Except.error PyError.keyError) sessions with
  | .error e => .error e
  | .ok exps =>
      match exps.head? with
      | none => .error .indexError
      | some base =>
          match label_list.get? 3 with
          | none => .error .indexError
          | some l3 =>
              let laterality := (dictGet base.fields "laterality").getD l3
              match label_list.get? 4 with
              | none => .error .indexError
              | some l4 =>
                  let timepoint := (dictGet base.fields "timepoint").getD l4
                  match dictGet proj.experimentsMap
                      (pyJoin "_" (label_list.drop 1)) with
                  | none => .error .keyError
                  | some sess2 =>
                      let mo := pyOrNS (dictGet sess2.attrs "scanner/model")
                      let ma := pyOrNS
                        (dictGet sess2.attrs "scanner/manufacturer")
                      let r := scanner_resolve scanner_dict ma mo
                      .ok ⟨⟨laterality, timepoint, mo, ma, r.1⟩, r.2.1, r.2.2⟩

/-! ## Concept tags (`write_concept_tags`, lines 242-279) -/

/-- `write_concept_tags(results, biomarker, concept_key, tag_file,
tag_dict, session, metadata)`: renders the ontology lines (weight 1), one
accession-identifier line per base session (weight 2) and one line per
metadata entry (weight 2), then writes them.  The guard of the write loop
tests `(concept_key + x) not in tag_dict.keys()` where `x` is the loop
variable left over from the preceding `for x in metadata` loop — the last
metadata key, not the line being written; each written line is recorded in
`tag_dict` under the line itself.  Returns the updated `tag_dict` key set
and the written lines. -/
def write_concept_tags (bm : Biomarker) (concept_key : String)
    (tag_dict : List String) (s : Session) (m : Metadata) :
    List String × List String :=
  let lines :=
    [pyJoin "\t" [concept_key, "Ontology name", bm.ontology_name] ++ "\t" ++
       toString 1 ++ "\n",
     pyJoin "\t" [concept_key, "Ontology IRI", bm.ontology_iri] ++ "\t" ++
       toString 1 ++ "\n"] ++
    s.base_sessions.map (fun x =>
      pyJoin "\t" [concept_key, "accession identifier", x.accession_identifier] ++
        "\t" ++ toString 2 ++ "\n") ++
    (metadataItems m).map (fun kv =>
      pyJoin "\t" [concept_key, kv.1, kv.2] ++ "\t" ++ toString 2 ++ "\n")
  let x := ((metadataItems m).map Prod.fst).getLastD ""
  lines.foldl
    (fun acc line =>
      if (concept_key ++ x) ∈ acc.1 then acc
      else ((if line ∈ acc.1 then acc.1 else acc.1 ++ [line]), acc.2 ++ [line]))
    (tag_dict, [])

/-- Fixture session for the C3 evaluation: two base sessions carrying the
same accession identifier. -/
def c3Session : Session :=
  ⟨"001_qib_S_L_T1", "P", none, none, [], [], [⟨"ACC1"⟩, ⟨"ACC1"⟩], ""⟩

/-- Fixture metadata for the C3 evaluation. -/
def c3Meta : Metadata := ⟨"L", "T1", "M9000", "Acme", "scanner1"⟩

/-! ## Row Accumulator (`retrieve_QIB`, lines 167-239, and `obtain_data`,
lines 119-164)

The run state threads the header list, the per-subject row dictionary, the
concept-key list, the `tag_dict` key set, the scanner dictionary, and the
lines written to the tag file and appended to the scanner lookup file.
The extra `trace` field is pure instrumentation: it records every key at
the moment the code tests it for membership ("subject" at the
`if 'subject' not in data_header_list` site, each concept key at its
`if concept_key not in ...` site), so that first-seen order can be stated;
no embedded function reads it. -/

/-- State threaded through `retrieve_QIB`. -/
structure RQState where
  header : List String
  row : List (String × String)
  ck_list : List String
  tag_dict : List String
  scanner_dict : List (String × Nat)
  tag_lines : List String
  scanner_file : List String
  trace : List String
  deriving DecidableEq, Repr

/-- The body of the biomarker loop (lines 215-237): build the concept key,
store the value in the row, and on a never-seen key append it to the
header and concept-key lists and emit its concept tags.  The
`__name__ == "QIB2TBatch"` guard around `write_concept_tags` holds in the
pipeline (the module is imported by `QIBconverter`), so it is modelled as
true. -/
def rqBioStep (s : Session) (m : Metadata) (begin_ck : String)
    (cat : BiomarkerCategory) (st : RQState) (bm : Biomarker) : RQState :=
  let concept_key := pyJoin "\\"
    [begin_ck, m.scanner, cat.category_name, m.laterality, m.timepoint, bm.id]
  let st' : RQState := { st with row := dictSet st.row concept_key bm.value,
                                 trace := st.trace ++ [concept_key] }
  if concept_key ∈ st'.header ∨ concept_key ∈ st'.ck_list then st'
  else
    let w := write_concept_tags bm concept_key st'.tag_dict s m
    { st' with header := st'.header ++ [concept_key],
               ck_list := st'.ck_list ++ [concept_key],
               tag_dict := w.1,
               tag_lines := st'.tag_lines ++ w.2 }

/-- The scanner tag loop of lines 205-210: for each metadata key that
contains "scanner " (with the trailing space), render the tag line under
the `begin_ck\scanner-label` path with weight 1 and write it unless the
full line is already recorded in `tag_dict`.  Returns the updated
`tag_dict` key set and the written lines. -/
def scannerTagFold (begin_ck : String) (m : Metadata) (td : List String) :
    List String × List String :=
  (metadataItems m).foldl
    (fun acc kv =>
      if strContains kv.1 "scanner " then
        let line := pyJoin "\t" [begin_ck ++ "\\" ++ m.scanner, kv.1, kv.2] ++
          "\t" ++ toString 1 ++ "\n"
        if line ∈ acc.1 then acc else (acc.1 ++ [line], acc.2 ++ [line])
      else acc)
    (td, ([] : List String))

/-- The run state just before the biomarker loop of `retrieve_QIB`
(lines 193-210): project metadata tags written, the subject key stored
(pseudonym from the patient map when present), "subject" ensured in the
header list, session metadata resolved, scanner tag lines written. -/
def rqSetup (cfg : Config) (subjectLabel : String) (session : Session)
    (st : RQState) (gsd : GsdOut) : RQState :=
  let wpm := write_project_metadata session st.tag_dict cfg.tag_list
  let tdsc := scannerTagFold wpm.1 gsd.metadata wpm.2.1
  ⟨(if "subject" ∈ st.header then st.header else st.header ++ ["subject"]),
   dictSet st.row "subject"
     ((dictGet cfg.patient_map subjectLabel).getD subjectLabel),
   st.ck_list, tdsc.1, gsd.scanner_dict,
   st.tag_lines ++ wpm.2.2 ++ tdsc.2,
   st.scanner_file ++ gsd.appended,
   st.trace ++ ["subject"]⟩

/-- `retrieve_QIB(experiment, tag_file, data_row_dict, subject, ...)`:
project metadata tags first, then the subject key, then session metadata
via `get_session_data`, then the scanner tag lines (see `rqSetup`), then
the biomarker loop. -/
def retrieve_QIB (cfg : Config) (proj : Project) (subjectLabel : String)
    (session : Session) (st : RQState) : Except PyError RQState :=
  match get_session_data (pySplit session.label '_') proj
      session.base_sessions st.scanner_dict with
  | .error e => .error e
  | .ok gsd =>
      .ok (session.biomarker_categories.foldl
        (fun acc cat => cat.biomarkers.foldl
          (rqBioStep session gsd.metadata
            (write_project_metadata session st.tag_dict cfg.tag_list).1 cat)
          acc)
        (rqSetup cfg subjectLabel session st gsd))

/-- State threaded through the subject loop of `obtain_data`: the
`retrieve_QIB` state (without the per-subject row) plus the accumulated
`data_list`. -/
structure ODState where
  header : List String
  ck_list : List String
  tag_dict : List String
  scanner_dict : List (String × Nat)
  tag_lines : List String
  scanner_file : List String
  trace : List String
  data_list : List (List (String × String))
  deriving DecidableEq, Repr

/-- The `for experiment in subject_obj.experiments.values()` loop
(lines 144-152): `retrieve_QIB` on each qualifying experiment. -/
def expFold (cfg : Config) (proj : Project) (slab : String) (acc : RQState)
    (es : List Session) : Except PyError RQState :=
  exceptFoldl
    (fun (acc : RQState) e =>
      if qualifies cfg e then retrieve_QIB cfg proj slab e acc else .ok acc)
    acc es

/-- One iteration of `for subject in project.subjects.values()`
(lines 141-154): a fresh `data_row_dict`, `retrieve_QIB` on each
qualifying experiment, and the row appended to `data_list` only when
non-empty. -/
def subjectStep (cfg : Config) (proj : Project) (st : ODState)
    (subj : Subject) : Except PyError ODState :=
  match expFold cfg proj subj.label
      (⟨st.header, [], st.ck_list, st.tag_dict, st.scanner_dict, st.tag_lines,
        st.scanner_file, st.trace⟩ : RQState)
      subj.experiments with
  | .error e => .error e
  | .ok r =>
      .ok ⟨r.header, r.ck_list, r.tag_dict, r.scanner_dict, r.tag_lines,
           r.scanner_file, r.trace,
           if r.row.length > 0 then st.data_list ++ [r.row] else st.data_list⟩

/-- The subject loop of `obtain_data` over a given subject list. -/
def obtain_data_core (cfg : Config) (proj : Project)
    (subjects : List Subject) (st : ODState) : Except PyError ODState :=
  exceptFoldl (subjectStep cfg proj) st subjects

/-- The initial `obtain_data` state: empty accumulators, the scanner
dictionary loaded from `config.scanner_dict_file`. -/
def initOD (sd : List (String × Nat)) : ODState := ⟨[], [], [], sd, [], [], [], []⟩

/-- `obtain_data(project, tag_file, patient_map, config)`: runs the
subject loop and then the empty-result check (lines 156-164).  In the
pipeline (`__name__ == "QIB2TBatch"`), the empty case returns the bare
`data_list` instead of the usual pair; the caller
`data_list, data_header_list = QIB2TBatch.obtain_data(...)` then raises
`ValueError` unpacking it, so the empty case is modelled as that
`ValueError`. -/
def obtain_data (cfg : Config) (proj : Project)
    (scanner_dict : List (String × Nat)) :
    Except PyError (List (List (String × String)) × List String) :=
  match obtain_data_core cfg proj proj.subjects (initOD scanner_dict) with
  | .error e => .error e
  | .ok st =>
      if st.data_list = [[]] ∨ st.data_list = [] then .error .valueError
      else .ok (st.data_list, st.header)

/-! ## Tabular Emitter (`write_data`, lines 320-357) -/

/-- Python `list.index` semantics restricted to present elements: index of
the first occurrence (returns the length when absent; the code only calls
it on members). -/
def listIdx (k : String) : List String → Nat
  | [] => 0
  | a :: as => if a = k then 0 else listIdx k as + 1

/-- `"\\".join(header.split("\\")[:-1])` (line 354). -/
def catCode (h : String) : String :=
  pyJoin "\\" ((pySplit h '\\').dropLast)

/-- `header.split("\\")[-1]` (line 351); `split` never returns an empty
list, so the default is never used. -/
def dataLabel (h : String) : String :=
  ((pySplit h '\\').getLastD "")

/-- State of the inner `for header in data_header_list` loop of
`write_data`: the row cells, the `column_list`, the `subject_written`
flag and the concept-file lines written during this row. -/
structure WdInner where
  cells : List String
  column_list : List String
  subject_written : Bool
  concept_out : List String
  deriving DecidableEq, Repr

/-- One iteration of the inner loop (lines 340-354): when the header is a
key of the row, place `value + "\t"` at the header's index; the first
"subject" column writes the `SUBJ_ID` concept line, any other not yet
listed column writes its concept line. -/
def wdInnerStep (fname : String) (hdr : List String)
    (row : List (String × String)) (a : WdInner) (h : String) : WdInner :=
  match dictGet row h with
  | none => a
  | some v =>
      let index := listIdx h hdr
      let cells' := a.cells.set index (v ++ "\t")
      if h = "subject" ∧ a.subject_written = false then
        ⟨cells', a.column_list ++ [h], true,
         a.concept_out ++
           [fname ++ "\t" ++ h ++ "\t" ++ toString (index + 1) ++ "\tSUBJ_ID\n"]⟩
      else if h ∉ a.column_list then
        ⟨cells', a.column_list ++ [h], a.subject_written,
         a.concept_out ++
           [fname ++ "\t" ++ catCode h ++ "\t" ++ toString (index + 1) ++ "\t" ++
             dataLabel h ++ "\n"]⟩
      else ⟨cells', a.column_list, a.subject_written, a.concept_out⟩

/-- State of the outer row loop of `write_data`. -/
structure WdOuter where
  column_list : List String
  subject_written : Bool
  data_out : List String
  concept_out : List String
  deriving DecidableEq, Repr

/-- One iteration of `for line in data_list` (lines 332-356): cells start
as one `"\t"` per header, the inner loop fills them, then
`row[-1] = row[-1].replace('\t', '\n')` (an `IndexError` on an empty cell
list) and the joined row is written. -/
def wdRow (fname : String) (hdr : List String) (st : WdOuter)
    (row : List (String × String)) : Except PyError WdOuter :=
  let a := hdr.foldl (wdInnerStep fname hdr row)
    ⟨hdr.map (fun _ => "\t"), st.column_list, st.subject_written, []⟩
  match a.cells.getLast? with
  | none => .error .indexError
  | some last =>
      .ok ⟨a.column_list, a.subject_written,
           st.data_out ++
             [pyJoin "" (a.cells.dropLast ++ [pyReplaceChar last '\t' '\n'])],
           st.concept_out ++ a.concept_out⟩

/-- `write_data(data_file, concept_file, data_list, data_header_list)`:
writes the tab-joined header line and then the rows; returns the lines of
the clinical data file and of the column-definition file, in order. -/
def write_data (fname : String) (data_list : List (List (String × String)))
    (hdr : List String) : Except PyError (List String × List String) :=
  match exceptFoldl (wdRow fname hdr) ⟨[], false, [], []⟩ data_list with
  | .error e => .error e
  | .ok st => .ok ((pyJoin "\t" hdr ++ "\n") :: st.data_out, st.concept_out)

/-! ## Scanner Registry claims (C4) -/

/-- Feeds a sequence of (manufacturer, model) pairs through the registry
resolution of `get_session_data` (placeholder substitution of lines
427-428 followed by `scanner_resolve`), threading the persistent
dictionary; the dictionary also persists across runs through the lookup
file, so a cross-run sequence is the same fold.  Returns the labels in
order and the final dictionary. -/
def resolvePairs (sd : List (String × Nat)) :
    List (Option String × Option String) → List String × List (String × Nat)
  | [] => ([], sd)
  | p :: ps =>
      let r := scanner_resolve sd (pyOrNS p.1) (pyOrNS p.2)
      let rest := resolvePairs r.2.1 ps
      (r.1 :: rest.1, rest.2)

/-- Fixture session for the C8 counterexample: the first configured tag
name is absent (raises `AttributeError`), the second is present. -/
def c8Session : Session := ⟨"x", "P", none, none, [("b", "v")], [], [], ""⟩

/-- Concrete fixture for the update-gate claims: one subject with one
qualifying session labelled "s1_qib" in project "P". -/
def gateCfg : Config := ⟨"P", [], []⟩

/-- The fixture subject, parametrised by the session timestamp. -/
def gateSubject (ts : String) : Subject :=
  ⟨"SUBJ01", [⟨"s1_qib", "P", none, none, [], [], [], ts⟩]⟩

/-! ## Statement-side definitions

These definitions appear in claim statements (or drive the proofs); they
are not part of the embedding itself. -/

/-- The (manufacturer, model) pair of a session, each component passed
through the `or "Not specified"` substitution, concatenated exactly as
`scanner_name` is on line 429. -/
def keyOfPair (p : Option String × Option String) : String :=
  pyOrNS p.1 ++ pyOrNS p.2

/-- The scanner dictionary whose entries are the keys of `L` numbered
`n+1, n+2, ...` in order — the shape `scanner_resolve` maintains. -/
def rankDictFrom (n : Nat) : List String → List (String × Nat)
  | [] => []
  | k :: ks => (k, n + 1) :: rankDictFrom (n + 1) ks

/-- The scanner dictionary enumerating `L` from 1. -/
def rankDict (L : List String) : List (String × Nat) := rankDictFrom 0 L

/-- One step of first-occurrence collection: append the key if unseen. -/
def seenStep (acc : List String) (k : String) : List String :=
  if k ∈ acc then acc else acc ++ [k]

/-- The first occurrences of a list, in first-seen order. -/
def firstOccs (ks : List String) : List String := ks.foldl seenStep []

/-- Index of the first row of `rows` that has `h` as a key (the row count
when none does). -/
def firstRowAt (rows : List (List (String × String))) (h : String) : Nat :=
  match rows with
  | [] => 0
  | r :: rest => if (dictGet r h).isSome then 0 else firstRowAt rest h + 1

/-- The column-definition line `write_data` emits for header `h`: the
`SUBJ_ID` line for the "subject" column, otherwise the category-code /
data-label line; the column number is the 1-based position of `h` in the
header list. -/
def clineFor (fname : String) (hdr : List String) (h : String) : String :=
  if h = "subject" then
    fname ++ "\t" ++ h ++ "\t" ++ toString (listIdx h hdr + 1) ++ "\tSUBJ_ID\n"
  else
    fname ++ "\t" ++ catCode h ++ "\t" ++ toString (listIdx h hdr + 1) ++ "\t" ++
      dataLabel h ++ "\n"

/-- The data line for one row as the claim describes it: the row's value
for each header in header order, the empty string for a header the row
lacks, tab-joined. -/
def rowLineOf (hdr : List String) (r : List (String × String)) : String :=
  pyJoin "\t" (hdr.map (fun h => (dictGet r h).getD "")) ++ "\n"

/-- Fixture configuration for the pipeline-run witnesses: project "P", no
configured tag names, empty patient map. -/
def runCfg : Config := ⟨"P", [], []⟩

/-- Fixture qualifying session "001_qib_STUDY_L_T1" (subject "SUBJ01"):
tool "ToolX" 1.0, one biomarker category "Volume" with biomarker "V1" of
value "12.3", one base session "ACC1". -/
def runSession : Session :=
  ⟨"001_qib_STUDY_L_T1", "P", some "ToolX", some "1.0", [],
   [⟨"Volume", [⟨"V1", "12.3", "ON", "OI"⟩]⟩], [⟨"ACC1"⟩], "TS"⟩

/-- Fixture subject holding `runSession`. -/
def runSubject : Subject := ⟨"SUBJ01", [runSession]⟩

/-- Fixture project for the pipeline-run witnesses: the base-session
lookup "ACC1" has no explicit laterality/timepoint fields, and the
experiment looked up under the label tail "qib_STUDY_L_T1" carries the
scanner attributes Acme / 9000. -/
def runProject : Project :=
  ⟨[runSubject],
   [("ACC1", ⟨[], []⟩),
    ("qib_STUDY_L_T1",
     ⟨[], [("scanner/model", "9000"), ("scanner/manufacturer", "Acme")]⟩)]⟩

/-- Fixture project whose only subject has no qualifying experiment. -/
def emptyProject : Project :=
  ⟨[⟨"SUBJ01", [⟨"plain", "P", none, none, [], [], [], "TS"⟩]⟩], []⟩

/-- The run state after processing `runProject`'s subject list from the
empty initial state (the value of
`obtain_data_core runCfg runProject [runSubject] (initOD [])`). -/
def runOD : ODState :=
  ⟨["subject", "ToolX 1.0\\scanner1\\Volume\\L\\T1\\V1"],
   ["ToolX 1.0\\scanner1\\Volume\\L\\T1\\V1"],
   ["ToolX 1.0\\scanner1\tscanner model\t9000\t1\n",
    "ToolX 1.0\\scanner1\tscanner manufacturer\tAcme\t1\n",
    "ToolX 1.0\\scanner1\\Volume\\L\\T1\\V1\tOntology name\tON\t1\n",
    "ToolX 1.0\\scanner1\\Volume\\L\\T1\\V1\tOntology IRI\tOI\t1\n",
    "ToolX 1.0\\scanner1\\Volume\\L\\T1\\V1\taccession identifier\tACC1\t2\n",
    "ToolX 1.0\\scanner1\\Volume\\L\\T1\\V1\tlaterality\tL\t2\n",
    "ToolX 1.0\\scanner1\\Volume\\L\\T1\\V1\ttimepoint\tT1\t2\n",
    "ToolX 1.0\\scanner1\\Volume\\L\\T1\\V1\tscanner model\t9000\t2\n",
    "ToolX 1.0\\scanner1\\Volume\\L\\T1\\V1\tscanner manufacturer\tAcme\t2\n",
    "ToolX 1.0\\scanner1\\Volume\\L\\T1\\V1\tscanner\tscanner1\t2\n"],
   [("Acme9000", 1)],
   ["ToolX 1.0\\scanner1\tscanner model\t9000\t1\n",
    "ToolX 1.0\\scanner1\tscanner manufacturer\tAcme\t1\n",
    "ToolX 1.0\\scanner1\\Volume\\L\\T1\\V1\tOntology name\tON\t1\n",
    "ToolX 1.0\\scanner1\\Volume\\L\\T1\\V1\tOntology IRI\tOI\t1\n",
    "ToolX 1.0\\scanner1\\Volume\\L\\T1\\V1\taccession identifier\tACC1\t2\n",
    "ToolX 1.0\\scanner1\\Volume\\L\\T1\\V1\tlaterality\tL\t2\n",
    "ToolX 1.0\\scanner1\\Volume\\L\\T1\\V1\ttimepoint\tT1\t2\n",
    "ToolX 1.0\\scanner1\\Volume\\L\\T1\\V1\tscanner model\t9000\t2\n",
    "ToolX 1.0\\scanner1\\Volume\\L\\T1\\V1\tscanner manufacturer\tAcme\t2\n",
    "ToolX 1.0\\scanner1\\Volume\\L\\T1\\V1\tscanner\tscanner1\t2\n"],
   ["Acme9000\t1\n"],
   ["subject", "ToolX 1.0\\scanner1\\Volume\\L\\T1\\V1"],
   [[("subject", "SUBJ01"), ("ToolX 1.0\\scanner1\\Volume\\L\\T1\\V1", "12.3")]]⟩

/-- The empty initial `retrieve_QIB` state. -/
def initRQ : RQState := ⟨[], [], [], [], [], [], [], []⟩

/-- The session metadata resolved for `runSession` against `runProject`
with an empty scanner dictionary. -/
def runGsd : GsdOut :=
  ⟨⟨"L", "T1", "9000", "Acme", "scanner1"⟩, [("Acme9000", 1)],
   ["Acme9000\t1\n"]⟩

/-- The state `retrieve_QIB runCfg runProject "SUBJ01" runSession initRQ`
returns. -/
def runRQ : RQState :=
  ⟨runOD.header,
   [("subject", "SUBJ01"), ("ToolX 1.0\\scanner1\\Volume\\L\\T1\\V1", "12.3")],
   runOD.ck_list, runOD.tag_dict, runOD.scanner_dict, runOD.tag_lines,
   runOD.scanner_file, runOD.trace⟩

/-- Fixture pair sequence for the C4 witness: the Acme/9000 scanner, an
unspecified device, and the Acme/9000 scanner again. -/
def c4ps : List (Option String × Option String) :=
  [(some "Acme", some "9000"), (none, none), (some "Acme", some "9000")]

/-- The headers of one row that the column-definition loop emits during
that row: headers (in header order) that the row has a value for and that
are not yet listed. -/
def wdEmits (row : List (String × String)) (cl : List String)
    (iter : List String) : List String :=
  iter.filter (fun h => (dictGet row h).isSome && decide (h ∉ cl))

/-- The column-definition lines emitted across a row list, threading the
already-listed columns. -/
def wdConceptRows (fname : String) (hdr : List String) (cl : List String) :
    List (List (String × String)) → List String
  | [] => []
  | r :: rest =>
      (wdEmits r cl hdr).map (clineFor fname hdr) ++
        wdConceptRows fname hdr (cl ++ wdEmits r cl hdr) rest

/-- The columns listed after processing a row list, threading the
already-listed columns (companion to `wdConceptRows`). -/
def wdCols (hdr cl : List String) : List (List (String × String)) → List String
  | [] => cl
  | r :: rest => wdCols hdr (cl ++ wdEmits r cl hdr) rest

/-- The run-state invariant of the header bookkeeping: the header list is
the first-occurrence list of the observation trace, and the concept-key
list is the header list without the "subject" column. -/
def RQInvP (st : RQState) : Prop :=
  st.header = firstOccs st.trace ∧
  st.ck_list = st.header.filter (fun h => h != "subject")

/-- The same invariant on the subject-loop state. -/
def ODInvP (st : ODState) : Prop :=
  st.header = firstOccs st.trace ∧
  st.ck_list = st.header.filter (fun h => h != "subject")

/-! ## Claim theorems and supporting lemmas -/

/-- Claim C3: the claim states that the tag writer emits a rendered line
only if the byte-identical line has not been emitted before, so the tag
stream never contains two byte-identical lines.  In `write_concept_tags`
the write-loop guard tests the stale key `concept_key + x` (where `x` is
the last key of the preceding metadata loop) instead of the line about to
be written, even though the line itself is what gets recorded in
`tag_dict`; consequently a session whose base sessions share an accession
identifier gets the identical accession-identifier tag line written twice.
This theorem evaluates the embedded writer at that failing input. -/
theorem c3_duplicate_tag_lines :
    (write_concept_tags ⟨"V1", "12.3", "ON", "OI"⟩ "CK" [] c3Session c3Meta).2.count
        "CK\taccession identifier\tACC1\t2\n" = 2 ∧
    ¬ (write_concept_tags ⟨"V1", "12.3", "ON", "OI"⟩ "CK" [] c3Session c3Meta).2.Nodup := by
  decide

/-- Claim C4 counterexample: the registry keys on the *concatenation* of
the placeholder-substituted manufacturer and model, so the two distinct
pairs ("AB", "C") and ("A", "BC") collide on the key "ABC": the second
distinct pair ever seen receives label "scanner1", not "scanner2" as the
claim requires for the 2nd distinct pair. -/
theorem c4_counterexample :
    (resolvePairs [] [(some "AB", some "C"), (some "A", some "BC")]).1 =
      ["scanner1", "scanner1"] ∧
    ((some "AB" : Option String), (some "C" : Option String)) ≠
      ((some "A" : Option String), (some "BC" : Option String)) := by
  decide

/-- Claim C10: for a qualifying session whose base-session collection is
empty, `get_session_data` evaluates
`[project.experiments[x.accession_identifier] for x in sessions][0]` —
indexing element 0 of an empty list — which raises an unhandled
`IndexError`, and `retrieve_QIB` propagates it, aborting the run,
whatever the rest of the input is. -/
theorem c10_empty_base_sessions (label_list : List String) (proj : Project)
    (sd : List (String × Nat)) :
    get_session_data label_list proj [] sd = .error .indexError ∧
    ∀ (cfg : Config) (slab lb pr ts : String) (tool ver : Option String)
      (tags : List (String × String)) (cats : List BiomarkerCategory)
      (st : RQState),
      retrieve_QIB cfg proj slab ⟨lb, pr, tool, ver, tags, cats, [], ts⟩ st =
        .error .indexError := by
  constructor
  · rfl
  · intro cfg slab lb pr ts tool ver tags cats st
    rfl

/-- Claim C8 counterexample: with tag list `["a", "b"]` and a session on
which `a` is absent, the second configured tag is emitted with weight 2
(`len(tag_list)`), not the claimed `len(tag_list) - (2 - 1) = 1`: the
weight counter only decrements when a tag is present and truthy. -/
theorem c8_counterexample :
    (write_project_metadata c8Session [] ["a", "b"]).2.2 =
      ["Generic Tool\tb\tv\t2\n"] ∧
    "Generic Tool\tb\tv\t1\n" ∉ (write_project_metadata c8Session [] ["a", "b"]).2.2 := by
  decide

/-- Claim C1: the claim states that when the Update Detector reports no
changed timestamps (`hasNewData` false) the run terminates early through
the no-new-data exit, and that when it reports changed data it proceeds to
write output.  The code does the opposite: `check_if_updated` returns
`True` exactly when a timestamp differs from the snapshot, and
`QIBconverter.main` exits with status 9 (logging "No data added. Exiting")
precisely when that result is `True`, while a run whose timestamps all
match an existing snapshot falls through and writes all output files.
This theorem evaluates the embedded gate at both failing inputs. -/
theorem c1_update_gate_inverted :
    check_if_updated gateCfg [gateSubject "T2"] (some [("s1_qib", "T1")]) =
      .ok true ∧
    mainUpdateGate gateCfg [gateSubject "T2"] (some [("s1_qib", "T1")]) =
      .exitNoNewData ∧
    check_if_updated gateCfg [gateSubject "T1"] (some [("s1_qib", "T1")]) =
      .ok false ∧
    mainUpdateGate gateCfg [gateSubject "T1"] (some [("s1_qib", "T1")]) =
      .proceedsToWrite := by
  decide

/-- Claim C2: the claim states that a current qualifying session whose
label is absent from the snapshot's session list is treated as changed
(result `true`), never as an error.  In the code the comparison loop reads
`data['session_list'][experiment_label]`, which raises an unhandled
`KeyError` for such a session.  This theorem evaluates the embedded
detector at the failing input (snapshot file present, its session list
empty) and also records that the differing-timestamp half of the claim
does hold. -/
theorem c2_new_session_keyerror :
    check_if_updated gateCfg [gateSubject "T2"] (some []) =
      .error .keyError ∧
    check_if_updated gateCfg [gateSubject "T2"] (some [("s1_qib", "T1")]) =
      .ok true := by
  decide

/-! ### General-purpose lemmas -/

theorem foldl_preserves {α β : Type} (f : α → β → α) (P : α → Prop) :
    ∀ (l : List β) (a : α), (∀ x b, b ∈ l → P x → P (f x b)) → P a →
      P (l.foldl f a) := by
  intro l
  induction l with
  | nil => exact fun a _ h => h
  | cons b t ih =>
      intro a hf h
      exact ih (f a b) (fun x e he hx => hf x e (List.mem_cons_of_mem b he) hx)
        (hf a b (List.mem_cons_self b t) h)

theorem exceptFoldl_preserves {α β ε : Type} (f : α → β → Except ε α)
    (P : α → Prop) :
    ∀ (l : List β) (a r : α),
      (∀ x b y, b ∈ l → P x → f x b = .ok y → P y) →
      P a → exceptFoldl f a l = .ok r → P r := by
  intro l
  induction l with
  | nil =>
      intro a r _ h hr
      simp only [exceptFoldl, Except.ok.injEq] at hr
      exact hr ▸ h
  | cons b t ih =>
      intro a r hf h hr
      simp only [exceptFoldl] at hr
      cases hfa : f a b with
      | error e => rw [hfa] at hr; exact absurd hr (by simp)
      | ok a' =>
          rw [hfa] at hr
          exact ih a' r (fun x e y he => hf x e y (List.mem_cons_of_mem b he))
            (hf a b a' (List.mem_cons_self b t) h hfa) hr

theorem exceptFoldl_append {α β ε : Type} (f : α → β → Except ε α)
    (xs ys : List β) :
    ∀ a : α, exceptFoldl f a (xs ++ ys) =
      match exceptFoldl f a xs with
      | .error e => .error e
      | .ok a' => exceptFoldl f a' ys := by
  induction xs with
  | nil => intro a; simp [exceptFoldl]
  | cons b t ih =>
      intro a
      simp only [List.cons_append, exceptFoldl]
      cases f a b with
      | error e => rfl
      | ok a' => exact ih a'

theorem dictSet_ne_nil {α : Type} (d : List (String × α)) (k : String) (v : α) :
    dictSet d k v ≠ [] := by
  cases d with
  | nil => simp [dictSet]
  | cons p rest =>
      obtain ⟨k', v'⟩ := p
      simp only [dictSet]
      split <;> simp

theorem mem_keys_dictSet_self {α : Type} (d : List (String × α)) (k : String)
    (v : α) : k ∈ (dictSet d k v).map Prod.fst := by
  induction d with
  | nil => simp [dictSet]
  | cons p rest ih =>
      obtain ⟨k', v'⟩ := p
      simp only [dictSet]
      split
      · simp
      · simp only [List.map_cons, List.mem_cons]
        exact Or.inr ih

theorem mem_keys_dictSet_of_mem {α : Type} {d : List (String × α)} {a : String}
    (k : String) (v : α) (h : a ∈ d.map Prod.fst) :
    a ∈ (dictSet d k v).map Prod.fst := by
  induction d with
  | nil => simp at h
  | cons p rest ih =>
      obtain ⟨k', v'⟩ := p
      simp only [List.map_cons, List.mem_cons] at h
      simp only [dictSet]
      split
      · next heq =>
          rcases h with h | h
          · exact List.mem_cons.mpr (Or.inl (h.trans heq))
          · exact List.mem_cons.mpr (Or.inr h)
      · rcases h with h | h
        · exact List.mem_cons.mpr (Or.inl h)
        · exact List.mem_cons.mpr (Or.inr (ih h))

theorem mem_seenStep {a k : String} {s : List String} :
    a ∈ seenStep s k ↔ a ∈ s ∨ a = k := by
  unfold seenStep
  split
  · next h =>
      constructor
      · exact Or.inl
      · rintro (ha | rfl)
        · exact ha
        · exact h
  · simp

theorem seenStep_self_mem (s : List String) (k : String) : k ∈ seenStep s k :=
  mem_seenStep.mpr (Or.inr rfl)

theorem seenFold_mem {a : String} :
    ∀ (l : List String) (s : List String),
      a ∈ l.foldl seenStep s ↔ a ∈ s ∨ a ∈ l := by
  intro l
  induction l with
  | nil => simp
  | cons k t ih =>
      intro s
      simp only [List.foldl_cons, ih, mem_seenStep, List.mem_cons]
      tauto

theorem seenFold_nodup :
    ∀ (l : List String) (s : List String), s.Nodup → (l.foldl seenStep s).Nodup := by
  intro l
  induction l with
  | nil => exact fun s h => h
  | cons k t ih =>
      intro s hs
      refine ih (seenStep s k) ?_
      unfold seenStep
      split
      · exact hs
      · next hk =>
          exact hs.append (List.nodup_singleton k)
            (fun a ha hb => hk ((List.mem_singleton.mp hb) ▸ ha))

theorem seenFold_extends :
    ∀ (l : List String) (s : List String), ∃ u, l.foldl seenStep s = s ++ u := by
  intro l
  induction l with
  | nil => exact fun s => ⟨[], by simp⟩
  | cons k t ih =>
      intro s
      obtain ⟨u, hu⟩ := ih (seenStep s k)
      by_cases hk : k ∈ s
      · exact ⟨u, by
          rw [List.foldl_cons, hu, show seenStep s k = s from if_pos hk]⟩
      · refine ⟨k :: u, ?_⟩
        rw [List.foldl_cons, hu, show seenStep s k = s ++ [k] from if_neg hk]
        simp

theorem firstOccs_nodup (l : List String) : (firstOccs l).Nodup :=
  seenFold_nodup l [] List.nodup_nil

theorem firstOccs_append_elem (l : List String) (k : String) :
    firstOccs (l ++ [k]) = seenStep (firstOccs l) k := by
  unfold firstOccs
  rw [List.foldl_append]
  rfl

theorem listIdx_lt_length {k : String} :
    ∀ {l : List String}, k ∈ l → listIdx k l < l.length := by
  intro l
  induction l with
  | nil => intro h; cases h
  | cons a t ih =>
      intro h
      simp only [listIdx]
      split
      · simp
      · next hne =>
          have hk : k ∈ t := by
            rcases List.mem_cons.mp h with h' | h'
            · exact absurd h'.symm hne
            · exact h'
          simpa [Nat.succ_lt_succ_iff] using ih hk

theorem listIdx_append_left {k : String} :
    ∀ {l : List String} (t : List String), k ∈ l →
      listIdx k (l ++ t) = listIdx k l := by
  intro l
  induction l with
  | nil => intro t h; cases h
  | cons a u ih =>
      intro t h
      show (if a = k then 0 else listIdx k (u ++ t) + 1) =
        if a = k then 0 else listIdx k u + 1
      by_cases hak : a = k
      · rw [if_pos hak, if_pos hak]
      · rw [if_neg hak, if_neg hak]
        have hk : k ∈ u := by
          rcases List.mem_cons.mp h with h' | h'
          · exact absurd h'.symm hak
          · exact h'
        rw [ih t hk]

theorem listIdx_append_right {k : String} :
    ∀ {l : List String} (t : List String), k ∉ l →
      listIdx k (l ++ t) = l.length + listIdx k t := by
  intro l
  induction l with
  | nil => intro t _; simp
  | cons a u ih =>
      intro t h
      have hne : ¬ a = k := fun e => h (e ▸ List.mem_cons_self a u)
      have hk : k ∉ u := fun e => h (List.mem_cons_of_mem a e)
      show (if a = k then 0 else listIdx k (u ++ t) + 1) =
        (a :: u).length + listIdx k t
      rw [if_neg hne, ih t hk, List.length_cons]
      omega

/-! ### Row Accumulator lemmas (towards C5, C6, C9) -/

theorem rqBioStep_row (s : Session) (m : Metadata) (begin_ck : String)
    (cat : BiomarkerCategory) (st : RQState) (bm : Biomarker) :
    (rqBioStep s m begin_ck cat st bm).row =
      dictSet st.row
        (pyJoin "\\" [begin_ck, m.scanner, cat.category_name, m.laterality,
          m.timepoint, bm.id]) bm.value := by
  simp only [rqBioStep]
  split <;> rfl

theorem rqBioStep_row_ne_nil (s : Session) (m : Metadata) (begin_ck : String)
    (cat : BiomarkerCategory) (st : RQState) (bm : Biomarker) :
    (rqBioStep s m begin_ck cat st bm).row ≠ [] := by
  rw [rqBioStep_row]
  exact dictSet_ne_nil _ _ _

theorem bioFolds_row_ne_nil (s : Session) (m : Metadata) (begin_ck : String)
    (cats : List BiomarkerCategory) (st : RQState) (h : st.row ≠ []) :
    (cats.foldl
      (fun acc cat => cat.biomarkers.foldl (rqBioStep s m begin_ck cat) acc)
      st).row ≠ [] := by
  refine foldl_preserves _ (fun x : RQState => x.row ≠ []) cats st ?_ h
  intro x cat _ hx
  refine foldl_preserves _ (fun y : RQState => y.row ≠ []) cat.biomarkers x ?_ hx
  intro y bm _ _
  exact rqBioStep_row_ne_nil s m begin_ck cat y bm

theorem retrieve_QIB_row_ne_nil (cfg : Config) (proj : Project) (slab : String)
    (session : Session) (st st' : RQState)
    (h : retrieve_QIB cfg proj slab session st = .ok st') : st'.row ≠ [] := by
  cases hg : get_session_data (pySplit session.label '_') proj
      session.base_sessions st.scanner_dict with
  | error e =>
      simp only [retrieve_QIB, hg] at h
      exact absurd h (by simp)
  | ok gsd =>
      simp only [retrieve_QIB, hg, Except.ok.injEq] at h
      subst h
      exact bioFolds_row_ne_nil _ _ _ _ _ (dictSet_ne_nil _ _ _)

theorem expFold_none (cfg : Config) (proj : Project) (slab : String) :
    ∀ (es : List Session) (acc : RQState),
      (∀ e ∈ es, qualifies cfg e = false) →
      expFold cfg proj slab acc es = .ok acc := by
  intro es
  induction es with
  | nil => intro acc _; rfl
  | cons e t ih =>
      intro acc h
      have he : qualifies cfg e = false := h e (List.mem_cons_self e t)
      simp only [expFold, exceptFoldl, he, Bool.false_eq_true, if_false]
      exact ih acc (fun x hx => h x (List.mem_cons_of_mem e hx))

theorem expFold_row_ne_nil (cfg : Config) (proj : Project) (slab : String) :
    ∀ (es : List Session) (acc : RQState) (r : RQState),
      (∃ e ∈ es, qualifies cfg e = true) →
      expFold cfg proj slab acc es = .ok r → r.row ≠ [] := by
  intro es
  induction es with
  | nil =>
      rintro acc r ⟨e, he, _⟩ _
      cases he
  | cons e t ih =>
      intro acc r hex h
      simp only [expFold, exceptFoldl] at h
      by_cases hq : qualifies cfg e = true
      · rw [if_pos hq] at h
        cases hr : retrieve_QIB cfg proj slab e acc with
        | error err => rw [hr] at h; exact absurd h (by simp)
        | ok acc' =>
            rw [hr] at h
            have hne : acc'.row ≠ [] :=
              retrieve_QIB_row_ne_nil cfg proj slab e acc acc' hr
            refine exceptFoldl_preserves _ (fun x : RQState => x.row ≠ [])
              t acc' r ?_ hne h
            intro x b y _ hx hy
            by_cases hqb : qualifies cfg b = true
            · rw [if_pos hqb] at hy
              exact retrieve_QIB_row_ne_nil cfg proj slab b x y hy
            · rw [if_neg hqb] at hy
              simp only [Except.ok.injEq] at hy
              exact hy ▸ hx
      · rw [if_neg hq] at h
        obtain ⟨e', he', hq'⟩ := hex
        rcases List.mem_cons.mp he' with rfl | he'
        · exact absurd hq' hq
        · exact ih acc r ⟨e', he', hq'⟩ h

theorem subjectStep_none (cfg : Config) (proj : Project) (st : ODState)
    (subj : Subject)
    (h : ∀ e ∈ subj.experiments, qualifies cfg e = false) :
    subjectStep cfg proj st subj = .ok st := by
  unfold subjectStep
  rw [expFold_none cfg proj subj.label subj.experiments _ h]
  rfl

theorem subjectStep_datalist (cfg : Config) (proj : Project) (st : ODState)
    (subj : Subject) (st' : ODState)
    (h : subjectStep cfg proj st subj = .ok st') :
    st'.data_list.length = st.data_list.length +
      (if subj.experiments.any (qualifies cfg) then 1 else 0) ∧
    (∀ r ∈ st'.data_list, r ∈ st.data_list ∨ r ≠ []) := by
  unfold subjectStep at h
  cases hf : expFold cfg proj subj.label
      (⟨st.header, [], st.ck_list, st.tag_dict, st.scanner_dict, st.tag_lines,
        st.scanner_file, st.trace⟩ : RQState) subj.experiments with
  | error e => rw [hf] at h; exact absurd h (by simp)
  | ok r =>
      rw [hf] at h
      simp only [Except.ok.injEq] at h
      subst h
      by_cases hq : subj.experiments.any (qualifies cfg) = true
      · have hex : ∃ e ∈ subj.experiments, qualifies cfg e = true := by
          simpa using List.any_eq_true.mp hq
        have hne : r.row ≠ [] :=
          expFold_row_ne_nil cfg proj subj.label subj.experiments _ r hex hf
        have hpos : r.row.length > 0 := List.length_pos.mpr hne
        rw [if_pos hq]
        constructor
        · simp [if_pos hpos]
        · intro x hx
          simp only [if_pos hpos, List.mem_append, List.mem_singleton] at hx
          rcases hx with hx | rfl
          · exact Or.inl hx
          · exact Or.inr hne
      · have hall : ∀ e ∈ subj.experiments, qualifies cfg e = false := by
          intro e he
          by_contra hne
          exact hq (List.any_eq_true.mpr ⟨e, he, by simpa using hne⟩)
        have := expFold_none cfg proj subj.label subj.experiments
          (⟨st.header, [], st.ck_list, st.tag_dict, st.scanner_dict,
            st.tag_lines, st.scanner_file, st.trace⟩ : RQState) hall
        rw [this] at hf
        simp only [Except.ok.injEq] at hf
        subst hf
        rw [if_neg hq]
        constructor
        · simp
        · intro x hx
          simp only [List.length_nil, gt_iff_lt, Nat.lt_irrefl, if_false] at hx
          exact Or.inl hx

theorem odcore_datalist (cfg : Config) (proj : Project) :
    ∀ (subs : List Subject) (st st' : ODState),
      obtain_data_core cfg proj subs st = .ok st' →
      st'.data_list.length = st.data_list.length +
        (subs.filter (fun s => s.experiments.any (qualifies cfg))).length := by
  intro subs
  induction subs with
  | nil =>
      intro st st' h
      simp only [obtain_data_core, exceptFoldl, Except.ok.injEq] at h
      rw [← h]
      simp
  | cons s t ih =>
      intro st st' h
      simp only [obtain_data_core, exceptFoldl] at h
      cases hs : subjectStep cfg proj st s with
      | error e => rw [hs] at h; exact absurd h (by simp)
      | ok st1 =>
          rw [hs] at h
          have hlen := (subjectStep_datalist cfg proj st s st1 hs).1
          have ht := ih st1 st' h
          rw [List.filter_cons]
          by_cases hq : s.experiments.any (qualifies cfg) = true
          · rw [if_pos hq] at hlen
            rw [if_pos (by simpa using hq), List.length_cons]
            omega
          · rw [if_neg hq] at hlen
            rw [if_neg (by simpa using hq)]
            omega

theorem odcore_rows_ne_nil (cfg : Config) (proj : Project)
    (subs : List Subject) (st st' : ODState)
    (hpres : ∀ r ∈ st.data_list, r ≠ [])
    (h : obtain_data_core cfg proj subs st = .ok st') :
    ∀ r ∈ st'.data_list, r ≠ [] := by
  refine exceptFoldl_preserves _
    (fun x : ODState => ∀ r ∈ x.data_list, r ≠ []) subs st st' ?_ hpres h
  intro x b y _ hx hy
  have hmem := (subjectStep_datalist cfg proj x b y hy).2
  intro r hr
  rcases hmem r hr with hin | hne
  · exact hx r hin
  · exact hne

theorem odcore_none (cfg : Config) (proj : Project) :
    ∀ (subs : List Subject) (st : ODState),
      (∀ s ∈ subs, ∀ e ∈ s.experiments, qualifies cfg e = false) →
      obtain_data_core cfg proj subs st = .ok st := by
  intro subs
  induction subs with
  | nil => intro st _; rfl
  | cons s t ih =>
      intro st h
      simp only [obtain_data_core, exceptFoldl]
      rw [subjectStep_none cfg proj st s (h s (List.mem_cons_self s t))]
      exact ih st (fun x hx => h x (List.mem_cons_of_mem s hx))

/-- Claim C9: a subject with zero qualifying sessions contributes no row
at all to the accumulated output (the row count equals the number of
subjects with at least one qualifying experiment, and no row is empty),
and a run in which no subject yields any data does not emit an empty
table: `obtain_data` ends in the fatal `ValueError` (the empty-list return
that the caller fails to unpack) instead of returning rows. -/
theorem c9_empty_and_exclusion (cfg : Config) (proj : Project)
    (sd : List (String × Nat)) :
    ((∀ s ∈ proj.subjects, ∀ e ∈ s.experiments, qualifies cfg e = false) →
        obtain_data cfg proj sd = .error .valueError) ∧
    (∀ rows hdr, obtain_data cfg proj sd = .ok (rows, hdr) →
        rows.length =
          (proj.subjects.filter
            (fun s => s.experiments.any (qualifies cfg))).length ∧
        ∀ r ∈ rows, r ≠ []) := by
  constructor
  · intro hall
    unfold obtain_data
    rw [odcore_none cfg proj proj.subjects (initOD sd) hall]
    rfl
  · intro rows hdr h
    unfold obtain_data at h
    cases hc : obtain_data_core cfg proj proj.subjects (initOD sd) with
    | error e => rw [hc] at h; exact absurd h (by simp)
    | ok st =>
        rw [hc] at h
        have h' : (if st.data_list = [[]] ∨ st.data_list = [] then
              (Except.error PyError.valueError :
                Except PyError (List (List (String × String)) × List String))
            else .ok (st.data_list, st.header)) = .ok (rows, hdr) := h
        by_cases hemp : st.data_list = [[]] ∨ st.data_list = []
        · rw [if_pos hemp] at h'
          exact absurd h' (by simp)
        · rw [if_neg hemp] at h'
          simp only [Except.ok.injEq, Prod.mk.injEq] at h'
          obtain ⟨hrows, hhdr⟩ := h'
          subst hrows
          constructor
          · have hl := odcore_datalist cfg proj proj.subjects (initOD sd) st hc
            simpa [initOD] using hl
          · exact odcore_rows_ne_nil cfg proj proj.subjects (initOD sd) st
              (by simp [initOD]) hc

/-- Witness for C9 at concrete inputs: the project whose only subject has
no qualifying experiment ends in the fatal `ValueError`, and the fixture
run yields exactly one non-empty row for its one subject with a
qualifying session. -/
theorem c9_witness :
    obtain_data runCfg emptyProject [] = .error .valueError ∧
    ([[("subject", "SUBJ01"),
       ("ToolX 1.0\\scanner1\\Volume\\L\\T1\\V1", "12.3")]] :
        List (List (String × String))).length =
      (runProject.subjects.filter
        (fun s => s.experiments.any (qualifies runCfg))).length ∧
    ∀ r ∈ ([[("subject", "SUBJ01"),
        ("ToolX 1.0\\scanner1\\Volume\\L\\T1\\V1", "12.3")]] :
        List (List (String × String))), r ≠ [] :=
  ⟨(c9_empty_and_exclusion runCfg emptyProject []).1 (by decide),
   (c9_empty_and_exclusion runCfg runProject []).2
     [[("subject", "SUBJ01"), ("ToolX 1.0\\scanner1\\Volume\\L\\T1\\V1", "12.3")]]
     ["subject", "ToolX 1.0\\scanner1\\Volume\\L\\T1\\V1"] (by decide)⟩

/-! ### Header-list invariant lemmas (towards C5) -/

theorem rqBioStep_inv (s : Session) (m : Metadata) (begin_ck : String)
    (cat : BiomarkerCategory) (st : RQState) (bm : Biomarker)
    (hsub : "subject" ∈ st.header) (hinv : RQInvP st) :
    RQInvP (rqBioStep s m begin_ck cat st bm) ∧
      "subject" ∈ (rqBioStep s m begin_ck cat st bm).header ∧
      st.header <+: (rqBioStep s m begin_ck cat st bm).header ∧
      st.trace <+: (rqBioStep s m begin_ck cat st bm).trace := by
  obtain ⟨h1, h2⟩ := hinv
  simp only [rqBioStep]
  split
  · next hmem =>
      have hKh : pyJoin "\\" [begin_ck, m.scanner, cat.category_name,
          m.laterality, m.timepoint, bm.id] ∈ st.header := by
        rcases hmem with hm | hm
        · exact hm
        · exact List.mem_of_mem_filter (h2 ▸ hm)
      refine ⟨⟨?_, h2⟩, hsub, List.prefix_rfl, List.prefix_append _ _⟩
      show st.header = firstOccs (st.trace ++ [_])
      rw [firstOccs_append_elem, ← h1, seenStep, if_pos hKh]
  · next hmem =>
      have hKh : pyJoin "\\" [begin_ck, m.scanner, cat.category_name,
          m.laterality, m.timepoint, bm.id] ∉ st.header :=
        fun hc => hmem (Or.inl hc)
      have hKne : pyJoin "\\" [begin_ck, m.scanner, cat.category_name,
          m.laterality, m.timepoint, bm.id] ≠ "subject" :=
        fun e => hKh (e ▸ hsub)
      refine ⟨⟨?_, ?_⟩, List.mem_append_left _ hsub,
        List.prefix_append _ _, List.prefix_append _ _⟩
      · show st.header ++ [_] = firstOccs (st.trace ++ [_])
        rw [firstOccs_append_elem, ← h1, seenStep, if_neg hKh]
      · show st.ck_list ++ [_] = (st.header ++ [_]).filter (fun h => h != "subject")
        rw [List.filter_append, h2]
        congr 1
        simp [hKne]

theorem bioFolds_inv (s : Session) (m : Metadata) (begin_ck : String)
    (cats : List BiomarkerCategory) (st : RQState)
    (hsub : "subject" ∈ st.header) (hinv : RQInvP st) :
    RQInvP (cats.foldl
        (fun acc cat => cat.biomarkers.foldl (rqBioStep s m begin_ck cat) acc)
        st) ∧
      "subject" ∈ (cats.foldl
        (fun acc cat => cat.biomarkers.foldl (rqBioStep s m begin_ck cat) acc)
        st).header ∧
      st.header <+: (cats.foldl
        (fun acc cat => cat.biomarkers.foldl (rqBioStep s m begin_ck cat) acc)
        st).header ∧
      st.trace <+: (cats.foldl
        (fun acc cat => cat.biomarkers.foldl (rqBioStep s m begin_ck cat) acc)
        st).trace := by
  refine foldl_preserves _
    (fun x : RQState => RQInvP x ∧ "subject" ∈ x.header ∧
      st.header <+: x.header ∧ st.trace <+: x.trace)
    cats st ?_ ⟨hinv, hsub, List.prefix_rfl, List.prefix_rfl⟩
  intro x cat _ hx
  refine foldl_preserves _
    (fun y : RQState => RQInvP y ∧ "subject" ∈ y.header ∧
      st.header <+: y.header ∧ st.trace <+: y.trace)
    cat.biomarkers x ?_ hx
  intro y bm _ ⟨hy1, hy2, hy3, hy4⟩
  obtain ⟨q1, q2, q3, q4⟩ := rqBioStep_inv s m begin_ck cat y bm hy2 hy1
  exact ⟨q1, q2, hy3.trans q3, hy4.trans q4⟩

theorem retrieve_QIB_inv (cfg : Config) (proj : Project) (slab : String)
    (session : Session) (st st' : RQState)
    (h : retrieve_QIB cfg proj slab session st = .ok st') (hinv : RQInvP st) :
    RQInvP st' ∧ st.header <+: st'.header ∧ st.trace <+: st'.trace := by
  obtain ⟨h1, h2⟩ := hinv
  cases hg : get_session_data (pySplit session.label '_') proj
      session.base_sessions st.scanner_dict with
  | error e =>
      simp only [retrieve_QIB, hg] at h
      exact absurd h (by simp)
  | ok gsd =>
      simp only [retrieve_QIB, hg, Except.ok.injEq] at h
      subst h
      have hsub1 : "subject" ∈ (rqSetup cfg slab session st gsd).header := by
        show "subject" ∈
          (if "subject" ∈ st.header then st.header else st.header ++ ["subject"])
        split
        · assumption
        · exact List.mem_append_right _ (List.mem_singleton.mpr rfl)
      have hst1 : RQInvP (rqSetup cfg slab session st gsd) := by
        constructor
        · show (if "subject" ∈ st.header then st.header
              else st.header ++ ["subject"]) =
            firstOccs (st.trace ++ ["subject"])
          rw [firstOccs_append_elem, ← h1]
          rfl
        · show st.ck_list =
            (if "subject" ∈ st.header then st.header
              else st.header ++ ["subject"]).filter (fun h => h != "subject")
          split
          · exact h2
          · rw [List.filter_append, h2]
            simp
      obtain ⟨q1, q2, q3, q4⟩ := bioFolds_inv session gsd.metadata
        (write_project_metadata session st.tag_dict cfg.tag_list).1
        session.biomarker_categories (rqSetup cfg slab session st gsd)
        hsub1 hst1
      refine ⟨q1, List.IsPrefix.trans ?_ q3, List.IsPrefix.trans ?_ q4⟩
      · show st.header <+:
          (if "subject" ∈ st.header then st.header else st.header ++ ["subject"])
        split
        · exact List.prefix_rfl
        · exact List.prefix_append _ _
      · exact List.prefix_append _ _

theorem subjectStep_inv (cfg : Config) (proj : Project) (st : ODState)
    (subj : Subject) (st' : ODState)
    (h : subjectStep cfg proj st subj = .ok st') (hinv : ODInvP st) :
    ODInvP st' ∧ st.header <+: st'.header := by
  unfold subjectStep at h
  cases hf : expFold cfg proj subj.label
      (⟨st.header, [], st.ck_list, st.tag_dict, st.scanner_dict, st.tag_lines,
        st.scanner_file, st.trace⟩ : RQState) subj.experiments with
  | error e => rw [hf] at h; exact absurd h (by simp)
  | ok r =>
      rw [hf] at h
      simp only [Except.ok.injEq] at h
      subst h
      have hr : RQInvP r ∧ st.header <+: r.header := by
        refine exceptFoldl_preserves _
          (fun x : RQState => RQInvP x ∧ st.header <+: x.header)
          subj.experiments _ r ?_ ⟨⟨hinv.1, hinv.2⟩, List.prefix_rfl⟩ hf
        intro x b y _ hx hy
        by_cases hq : qualifies cfg b = true
        · rw [if_pos hq] at hy
          obtain ⟨q1, q2, _⟩ := retrieve_QIB_inv cfg proj subj.label b x y hy hx.1
          exact ⟨q1, hx.2.trans q2⟩
        · rw [if_neg hq] at hy
          simp only [Except.ok.injEq] at hy
          exact hy ▸ hx
      exact ⟨⟨hr.1.1, hr.1.2⟩, hr.2⟩

theorem odcore_inv (cfg : Config) (proj : Project) (subs : List Subject)
    (st st' : ODState) (h : obtain_data_core cfg proj subs st = .ok st')
    (hinv : ODInvP st) : ODInvP st' ∧ st.header <+: st'.header := by
  refine exceptFoldl_preserves _
    (fun x : ODState => ODInvP x ∧ st.header <+: x.header)
    subs st st' ?_ ⟨hinv, List.prefix_rfl⟩ h
  intro x b y _ hx hy
  obtain ⟨q1, q2⟩ := subjectStep_inv cfg proj x b y hy hx.1
  exact ⟨q1, hx.2.trans q2⟩

/-- Claim C5: for a run over the subject list `xs ++ ys` (with the run
over the prefix `xs` exposed as an intermediate state), the final header
list contains no duplicate, equals the first-occurrence list of the
observation trace (first-seen order across the full subject traversal),
and extends the intermediate header list as a prefix (append-only: entries
are never removed or reordered). -/
theorem c5_headerlist (cfg : Config) (proj : Project) (sd : List (String × Nat))
    (xs ys : List Subject) (st1 st2 : ODState)
    (h1 : obtain_data_core cfg proj xs (initOD sd) = .ok st1)
    (h2 : obtain_data_core cfg proj (xs ++ ys) (initOD sd) = .ok st2) :
    st2.header.Nodup ∧ st2.header = firstOccs st2.trace ∧
      st1.header <+: st2.header := by
  have hinit : ODInvP (initOD sd) := ⟨rfl, rfl⟩
  have hx := odcore_inv cfg proj xs (initOD sd) st1 h1 hinit
  simp only [obtain_data_core] at h1 h2
  rw [exceptFoldl_append (subjectStep cfg proj) xs ys (initOD sd), h1] at h2
  have hy := odcore_inv cfg proj ys st1 st2 h2 hx.1
  refine ⟨?_, hy.1.1, hy.2⟩
  rw [hy.1.1]
  exact firstOccs_nodup _

/-- Witness for C5 at a concrete run: the fixture project's subject list
split as `[runSubject] ++ [second subject without experiments]`. -/
theorem c5_witness :
    runOD.header.Nodup ∧ runOD.header = firstOccs runOD.trace ∧
      runOD.header <+: runOD.header :=
  c5_headerlist runCfg runProject [] [runSubject] [⟨"SUBJ02", []⟩] runOD runOD
    (by decide) (by decide)

/-! ### Concept-key lemmas (towards C6) -/

theorem get_session_data_metadata (label_list : List String) (proj : Project)
    (sessions : List BaseSession) (sd : List (String × Nat))
    (bs : BaseSession) (exp : XnatExperiment) (l3 l4 : String) (gsd : GsdOut)
    (hh : sessions.head? = some bs)
    (he : dictGet proj.experimentsMap bs.accession_identifier = some exp)
    (h3 : label_list.get? 3 = some l3)
    (h4 : label_list.get? 4 = some l4)
    (hg : get_session_data label_list proj sessions sd = .ok gsd) :
    gsd.metadata.laterality = (dictGet exp.fields "laterality").getD l3 ∧
    gsd.metadata.timepoint = (dictGet exp.fields "timepoint").getD l4 := by
  cases sessions with
  | nil => simp at hh
  | cons b rest =>
      have hb : b = bs := by simpa using hh
      subst hb
      simp only [get_session_data, exceptMap, he] at hg
      cases hrest : exceptMap (fun x =>
          match dictGet proj.experimentsMap x.accession_identifier with
          | some e => Except.ok e
          | none => Except.error PyError.keyError) rest with
      | error e =>
          rw [hrest] at hg
          exact absurd hg (by simp)
      | ok es =>
          rw [hrest] at hg
          simp only [List.head?_cons, h3, h4] at hg
          cases hs2 : dictGet proj.experimentsMap
              (pyJoin "_" (label_list.drop 1)) with
          | none =>
              rw [hs2] at hg
              exact absurd hg (by simp)
          | some sess2 =>
              rw [hs2] at hg
              simp only [Except.ok.injEq] at hg
              subst hg
              exact ⟨rfl, rfl⟩

theorem rqBioStep_key_mem (s : Session) (m : Metadata) (begin_ck : String)
    (cat : BiomarkerCategory) (st : RQState) (bm : Biomarker) {a : String}
    (h : a ∈ st.row.map Prod.fst) :
    a ∈ (rqBioStep s m begin_ck cat st bm).row.map Prod.fst := by
  rw [rqBioStep_row]
  exact mem_keys_dictSet_of_mem _ _ h

theorem bioFold_inner_key_mem (s : Session) (m : Metadata) (begin_ck : String)
    (cat : BiomarkerCategory) :
    ∀ (bms : List Biomarker) (st : RQState) (bm : Biomarker), bm ∈ bms →
      pyJoin "\\" [begin_ck, m.scanner, cat.category_name, m.laterality,
        m.timepoint, bm.id] ∈
        (bms.foldl (rqBioStep s m begin_ck cat) st).row.map Prod.fst := by
  intro bms
  induction bms with
  | nil => intro st bm h; cases h
  | cons b t ih =>
      intro st bm h
      rcases List.mem_cons.mp h with rfl | h'
      · refine foldl_preserves _
          (fun x : RQState => pyJoin "\\" [begin_ck, m.scanner,
            cat.category_name, m.laterality, m.timepoint, bm.id] ∈
            x.row.map Prod.fst) t (rqBioStep s m begin_ck cat st bm) ?_ ?_
        · intro x e _ hx
          exact rqBioStep_key_mem s m begin_ck cat x e hx
        · show pyJoin "\\" [begin_ck, m.scanner, cat.category_name,
            m.laterality, m.timepoint, bm.id] ∈
            (rqBioStep s m begin_ck cat st bm).row.map Prod.fst
          rw [rqBioStep_row]
          exact mem_keys_dictSet_self _ _ _
      · exact ih (rqBioStep s m begin_ck cat st b) bm h'

theorem bioFolds_key_mem (s : Session) (m : Metadata) (begin_ck : String) :
    ∀ (cats : List BiomarkerCategory) (st : RQState)
      (cat : BiomarkerCategory) (bm : Biomarker),
      cat ∈ cats → bm ∈ cat.biomarkers →
      pyJoin "\\" [begin_ck, m.scanner, cat.category_name, m.laterality,
        m.timepoint, bm.id] ∈
        (cats.foldl
          (fun acc c => c.biomarkers.foldl (rqBioStep s m begin_ck c) acc)
          st).row.map Prod.fst := by
  intro cats
  induction cats with
  | nil => intro st cat bm hc; cases hc
  | cons c t ih =>
      intro st cat bm hc hb
      rcases List.mem_cons.mp hc with rfl | hc'
      · refine foldl_preserves _
          (fun x : RQState => pyJoin "\\" [begin_ck, m.scanner,
            cat.category_name, m.laterality, m.timepoint, bm.id] ∈
            x.row.map Prod.fst) t _ ?_
          (bioFold_inner_key_mem s m begin_ck cat cat.biomarkers st bm hb)
        intro x e _ hx
        refine foldl_preserves _
          (fun y : RQState => pyJoin "\\" [begin_ck, m.scanner,
            cat.category_name, m.laterality, m.timepoint, bm.id] ∈
            y.row.map Prod.fst) e.biomarkers x ?_ hx
        intro y b _ hy
        exact rqBioStep_key_mem s m begin_ck e y b hy
      · exact ih _ cat bm hc' hb

/-- Claim C6: for every biomarker of a processed session, the row key is
the backslash-join, in fixed order, of the tool prefix, the scanner
label, the category name, the laterality, the timepoint and the biomarker
id, where the laterality and timepoint equal the base-session experiment's
explicit `_fields` entries when present and otherwise the tokens at index
3 and 4 of the experiment label split on underscore. -/
theorem c6_concept_key (cfg : Config) (proj : Project) (slab : String)
    (session : Session) (st st' : RQState) (bs : BaseSession)
    (exp : XnatExperiment) (gsd : GsdOut) (l3 l4 : String)
    (hh : session.base_sessions.head? = some bs)
    (he : dictGet proj.experimentsMap bs.accession_identifier = some exp)
    (h3 : (pySplit session.label '_').get? 3 = some l3)
    (h4 : (pySplit session.label '_').get? 4 = some l4)
    (hg : get_session_data (pySplit session.label '_') proj
      session.base_sessions st.scanner_dict = .ok gsd)
    (hr : retrieve_QIB cfg proj slab session st = .ok st') :
    gsd.metadata.laterality = (dictGet exp.fields "laterality").getD l3 ∧
    gsd.metadata.timepoint = (dictGet exp.fields "timepoint").getD l4 ∧
    ∀ cat ∈ session.biomarker_categories, ∀ bm ∈ cat.biomarkers,
      pyJoin "\\" [toolConceptKey session, gsd.metadata.scanner,
        cat.category_name, gsd.metadata.laterality, gsd.metadata.timepoint,
        bm.id] ∈ st'.row.map Prod.fst := by
  obtain ⟨hl, ht⟩ := get_session_data_metadata _ _ _ _ _ _ _ _ _
    hh he h3 h4 hg
  refine ⟨hl, ht, ?_⟩
  intro cat hc bm hb
  simp only [retrieve_QIB, hg, Except.ok.injEq] at hr
  subst hr
  exact bioFolds_key_mem session gsd.metadata
    (write_project_metadata session st.tag_dict cfg.tag_list).1
    session.biomarker_categories (rqSetup cfg slab session st gsd) cat bm hc hb

/-- Witness for C6 at the spec's worked example: session
"001_qib_STUDY_L_T1" with tool "ToolX" 1.0, scanner Acme/9000 (first
registry entry), category "Volume", biomarker "V1": the resulting row
contains the key `ToolX 1.0\scanner1\Volume\L\T1\V1`. -/
theorem c6_witness :
    runGsd.metadata.laterality =
      (dictGet (⟨[], []⟩ : XnatExperiment).fields "laterality").getD "L" ∧
    runGsd.metadata.timepoint =
      (dictGet (⟨[], []⟩ : XnatExperiment).fields "timepoint").getD "T1" ∧
    ∀ cat ∈ runSession.biomarker_categories, ∀ bm ∈ cat.biomarkers,
      pyJoin "\\" [toolConceptKey runSession, runGsd.metadata.scanner,
        cat.category_name, runGsd.metadata.laterality,
        runGsd.metadata.timepoint, bm.id] ∈ runRQ.row.map Prod.fst :=
  c6_concept_key runCfg runProject "SUBJ01" runSession initRQ runRQ ⟨"ACC1"⟩
    ⟨[], []⟩ runGsd "L" "T1" (by decide) (by decide) (by decide) (by decide)
    (by decide) (by decide)

/-! ### Scanner Registry lemmas (towards C4) -/

theorem rankDictFrom_length : ∀ (L : List String) (n : Nat),
    (rankDictFrom n L).length = L.length := by
  intro L
  induction L with
  | nil => intro n; rfl
  | cons a t ih => intro n; simp [rankDictFrom, ih]

theorem dictGet_rankDictFrom :
    ∀ (L : List String) (n : Nat) (k : String),
      dictGet (rankDictFrom n L) k =
        if k ∈ L then some (n + listIdx k L + 1) else none := by
  intro L
  induction L with
  | nil => intro n k; simp [rankDictFrom, dictGet]
  | cons a t ih =>
      intro n k
      simp only [rankDictFrom, dictGet]
      by_cases hak : a = k
      · subst hak
        rw [if_pos rfl, if_pos (List.mem_cons_self a t)]
        simp [listIdx]
      · rw [if_neg hak, ih (n + 1) k]
        by_cases hkt : k ∈ t
        · rw [if_pos hkt, if_pos (List.mem_cons_of_mem a hkt)]
          simp only [listIdx, if_neg hak]
          congr 1
          omega
        · rw [if_neg hkt, if_neg (fun hc => by
            rcases List.mem_cons.mp hc with h' | h'
            · exact hak h'.symm
            · exact hkt h')]

theorem dictSet_rankDictFrom :
    ∀ (L : List String) (n : Nat) (k : String), k ∉ L →
      dictSet (rankDictFrom n L) k (n + L.length + 1) =
        rankDictFrom n (L ++ [k]) := by
  intro L
  induction L with
  | nil => intro n k _; simp [rankDictFrom, dictSet]
  | cons a t ih =>
      intro n k hk
      have hak : ¬ a = k := fun e => hk (e ▸ List.mem_cons_self a t)
      have hkt : k ∉ t := fun e => hk (List.mem_cons_of_mem a e)
      simp only [rankDictFrom, dictSet, if_neg hak, List.cons_append]
      have harith : n + (a :: t).length + 1 = (n + 1) + t.length + 1 := by
        simp [List.length_cons]
        omega
      rw [harith, ih (n + 1) k hkt]
      rfl

theorem rankDict_length (L : List String) : (rankDict L).length = L.length :=
  rankDictFrom_length L 0

theorem dictGet_rankDict (L : List String) (k : String) :
    dictGet (rankDict L) k =
      if k ∈ L then some (listIdx k L + 1) else none := by
  rw [rankDict, dictGet_rankDictFrom L 0 k]
  simp [Nat.zero_add]

theorem dictSet_rankDict (L : List String) (k : String) (h : k ∉ L) :
    dictSet (rankDict L) k (L.length + 1) = rankDict (L ++ [k]) := by
  have hset := dictSet_rankDictFrom L 0 k h
  rw [show (0 : Nat) + L.length + 1 = L.length + 1 from by omega] at hset
  exact hset

theorem scanner_resolve_mem (L : List String) (ma mo : String)
    (h : ma ++ mo ∈ L) :
    scanner_resolve (rankDict L) ma mo =
      ("scanner" ++ toString (listIdx (ma ++ mo) L + 1), rankDict L, []) := by
  simp only [scanner_resolve, dictGet_rankDict, if_pos h]
  simp

theorem scanner_resolve_fresh (L : List String) (ma mo : String)
    (h : ma ++ mo ∉ L) :
    scanner_resolve (rankDict L) ma mo =
      ("scanner" ++ toString (L.length + 1), rankDict (L ++ [ma ++ mo]),
       [ma ++ mo ++ "\t" ++ toString (L.length + 1) ++ "\n"]) := by
  simp only [scanner_resolve, dictGet_rankDict, if_neg h, rankDict_length]
  rw [dictSet_rankDict L (ma ++ mo) h]

theorem seenStep_of_mem {L : List String} {k : String} (h : k ∈ L) :
    seenStep L k = L := by
  rw [seenStep, if_pos h]

theorem seenStep_of_not_mem {L : List String} {k : String} (h : k ∉ L) :
    seenStep L k = L ++ [k] := by
  rw [seenStep, if_neg h]

theorem resolvePairs_rank :
    ∀ (ps : List (Option String × Option String)) (L : List String),
      (resolvePairs (rankDict L) ps).2 =
        rankDict ((ps.map keyOfPair).foldl seenStep L) ∧
      ∀ i, i < ps.length →
        (resolvePairs (rankDict L) ps).1.getD i "" =
          "scanner" ++ toString
            (listIdx (keyOfPair (ps.getD i (none, none)))
              (((ps.map keyOfPair).take (i + 1)).foldl seenStep L) + 1) := by
  intro ps
  induction ps with
  | nil =>
      intro L
      exact ⟨rfl, fun i hi => absurd hi (by simp)⟩
  | cons p t ih =>
      intro L
      by_cases hmem : keyOfPair p ∈ L
      · have hres := scanner_resolve_mem L (pyOrNS p.1) (pyOrNS p.2) hmem
        rw [show pyOrNS p.1 ++ pyOrNS p.2 = keyOfPair p from rfl] at hres
        simp only [resolvePairs, hres]
        obtain ⟨ih1, ih2⟩ := ih L
        constructor
        · rw [ih1]
          simp only [List.map_cons, List.foldl_cons]
          rw [seenStep_of_mem hmem]
        · intro i hi
          cases i with
          | zero =>
              simp only [List.getD_cons_zero, List.map_cons,
                List.take_succ_cons, List.take_zero, List.foldl_cons,
                List.foldl_nil]
              rw [seenStep_of_mem hmem]
          | succ n =>
              simp only [List.getD_cons_succ, List.map_cons,
                List.take_succ_cons, List.foldl_cons]
              rw [seenStep_of_mem hmem]
              exact ih2 n (by simpa using hi)
      · have hres := scanner_resolve_fresh L (pyOrNS p.1) (pyOrNS p.2) hmem
        rw [show pyOrNS p.1 ++ pyOrNS p.2 = keyOfPair p from rfl] at hres
        simp only [resolvePairs, hres]
        obtain ⟨ih1, ih2⟩ := ih (L ++ [keyOfPair p])
        constructor
        · rw [ih1]
          simp only [List.map_cons, List.foldl_cons]
          rw [seenStep_of_not_mem hmem]
        · intro i hi
          cases i with
          | zero =>
              simp only [List.getD_cons_zero, List.map_cons,
                List.take_succ_cons, List.take_zero, List.foldl_cons,
                List.foldl_nil]
              rw [seenStep_of_not_mem hmem,
                listIdx_append_right [keyOfPair p] hmem]
              simp [listIdx]
          | succ n =>
              simp only [List.getD_cons_succ, List.map_cons,
                List.take_succ_cons, List.foldl_cons]
              rw [seenStep_of_not_mem hmem]
              exact ih2 n (by simpa using hi)

theorem getD_map_key :
    ∀ (ps : List (Option String × Option String)) (i : Nat), i < ps.length →
      (ps.map keyOfPair).getD i "" = keyOfPair (ps.getD i (none, none)) := by
  intro ps
  induction ps with
  | nil => intro i h; simp at h
  | cons p t ih =>
      intro i h
      cases i with
      | zero => rfl
      | succ n => exact ih n (by simpa using h)

theorem getD_mem_take :
    ∀ (l : List String) (i : Nat), i < l.length →
      l.getD i "" ∈ l.take (i + 1) := by
  intro l
  induction l with
  | nil => intro i h; simp at h
  | cons a t ih =>
      intro i h
      cases i with
      | zero => simp
      | succ n =>
          rw [List.getD_cons_succ, List.take_succ_cons]
          exact List.mem_cons_of_mem a (ih n (by simpa using h))

theorem take_succ_getD :
    ∀ (l : List String) (i : Nat), i < l.length →
      l.take (i + 1) = l.take i ++ [l.getD i ""] := by
  intro l
  induction l with
  | nil => intro i h; simp at h
  | cons a t ih =>
      intro i h
      cases i with
      | zero => simp
      | succ n =>
          rw [List.getD_cons_succ, List.take_succ_cons, List.take_succ_cons,
            ih n (by simpa using h)]
          rfl

theorem take_prefix_of_le {l : List String} {i j : Nat} (h : i ≤ j) :
    l.take i <+: l.take j := by
  have hp := List.take_prefix i (l.take j)
  rwa [List.take_take, Nat.min_eq_left h] at hp

/-- Claim C4 (amended): the Scanner Registry keys on the concatenation of
the placeholder-substituted manufacturer and model strings.  For any
sequence of pairs resolved from an empty registry (the dictionary persists
across runs through the lookup file, so a cross-run sequence is the same
fold): the label at position `i` is "scanner" followed by the 1-based rank
of its key in the first-occurrence list of keys so far; re-resolving a
previously seen key (in any order, any number of times) returns the
originally assigned label; a pair whose key is fresh receives "scannerN"
where N is the number of distinct keys seen up to and including it; and a
missing or empty manufacturer or model is replaced by "Not specified"
before lookup, so all unspecified devices collapse onto one key. -/
theorem c4_amended (ps : List (Option String × Option String)) (i j : Nat)
    (hij : i ≤ j) (hj : j < ps.length) :
    ((resolvePairs [] ps).1.getD i "" = "scanner" ++ toString
        (listIdx (keyOfPair (ps.getD i (none, none)))
          (firstOccs ((ps.map keyOfPair).take (i + 1))) + 1)) ∧
    (keyOfPair (ps.getD i (none, none)) = keyOfPair (ps.getD j (none, none)) →
      (resolvePairs [] ps).1.getD i "" = (resolvePairs [] ps).1.getD j "") ∧
    (keyOfPair (ps.getD i (none, none)) ∉ (ps.map keyOfPair).take i →
      (resolvePairs [] ps).1.getD i "" = "scanner" ++
        toString (firstOccs ((ps.map keyOfPair).take (i + 1))).length) ∧
    pyOrNS none = "Not specified" ∧ pyOrNS (some "") = "Not specified" := by
  have hi : i < ps.length := Nat.lt_of_le_of_lt hij hj
  have h1 := (resolvePairs_rank ps []).2 i hi
  have h2 := (resolvePairs_rank ps []).2 j hj
  rw [show rankDict [] = ([] : List (String × Nat)) from rfl] at h1 h2
  have hilen : i < (ps.map keyOfPair).length := by simpa using hi
  refine ⟨h1, ?_, ?_, rfl, rfl⟩
  · intro hkey
    rw [← hkey] at h2
    rw [h1, h2]
    show "scanner" ++ toString
        (listIdx (keyOfPair (ps.getD i (none, none)))
          (firstOccs ((ps.map keyOfPair).take (i + 1))) + 1) =
      "scanner" ++ toString
        (listIdx (keyOfPair (ps.getD i (none, none)))
          (firstOccs ((ps.map keyOfPair).take (j + 1))) + 1)
    have hpre : (ps.map keyOfPair).take (i + 1) <+:
        (ps.map keyOfPair).take (j + 1) :=
      take_prefix_of_le (Nat.succ_le_succ hij)
    obtain ⟨mid, hmid⟩ := hpre
    have hk_mem : keyOfPair (ps.getD i (none, none)) ∈
        firstOccs ((ps.map keyOfPair).take (i + 1)) := by
      rw [← getD_map_key ps i hi]
      exact (seenFold_mem _ _).mpr (Or.inr (getD_mem_take _ i hilen))
    have hext : ∃ u, firstOccs ((ps.map keyOfPair).take (j + 1)) =
        firstOccs ((ps.map keyOfPair).take (i + 1)) ++ u := by
      rw [← hmid, firstOccs, List.foldl_append]
      exact seenFold_extends mid _
    obtain ⟨u, hu⟩ := hext
    rw [hu, listIdx_append_left u hk_mem]
  · intro hfresh
    rw [h1]
    show "scanner" ++ toString
        (listIdx (keyOfPair (ps.getD i (none, none)))
          (firstOccs ((ps.map keyOfPair).take (i + 1))) + 1) =
      "scanner" ++ toString (firstOccs ((ps.map keyOfPair).take (i + 1))).length
    have htake := take_succ_getD (ps.map keyOfPair) i hilen
    rw [getD_map_key ps i hi] at htake
    have hnotp : keyOfPair (ps.getD i (none, none)) ∉
        firstOccs ((ps.map keyOfPair).take i) := by
      intro hc
      rcases (seenFold_mem _ _).mp hc with hc' | hc'
      · cases hc'
      · exact hfresh hc'
    rw [htake, firstOccs_append_elem, seenStep_of_not_mem hnotp,
      listIdx_append_right _ hnotp]
    simp [listIdx, List.length_append]

/-- Witness for C4 (amended) at a concrete sequence: positions 0 and 2
carry the same concatenated key "Acme9000". -/
theorem c4_amended_witness :
    ((resolvePairs [] c4ps).1.getD 0 "" = "scanner" ++ toString
        (listIdx (keyOfPair (c4ps.getD 0 (none, none)))
          (firstOccs ((c4ps.map keyOfPair).take (0 + 1))) + 1)) ∧
    (keyOfPair (c4ps.getD 0 (none, none)) =
        keyOfPair (c4ps.getD 2 (none, none)) →
      (resolvePairs [] c4ps).1.getD 0 "" =
        (resolvePairs [] c4ps).1.getD 2 "") ∧
    (keyOfPair (c4ps.getD 0 (none, none)) ∉ (c4ps.map keyOfPair).take 0 →
      (resolvePairs [] c4ps).1.getD 0 "" = "scanner" ++
        toString (firstOccs ((c4ps.map keyOfPair).take (0 + 1))).length) ∧
    pyOrNS none = "Not specified" ∧ pyOrNS (some "") = "Not specified" :=
  c4_amended c4ps 0 2 (by decide) (by decide)

/-! ### Metadata tag weight lemmas (towards C8) -/

theorem strApp_left_ne {a b c : String} (h : b ≠ c) : a ++ b ≠ a ++ c := by
  intro he
  apply h
  have hd := congrArg String.data he
  simp only [String.data_append] at hd
  exact String.ext (List.append_cancel_left hd)

theorem wpmStep_lines (ck : String) (s : Session) (st : WpmSt) (t : String) :
    (wpmStep ck s st t).lines = st.lines ∨
    ∃ l, (wpmStep ck s st t).lines = st.lines ++ [l] := by
  cases ha : dictGet s.tagAttrs t with
  | none => simp only [wpmStep, ha]; exact Or.inl trivial
  | some v =>
      simp only [wpmStep, ha]
      by_cases hv : truthyS v = true
      · rw [if_pos hv]
        by_cases hd : (ck ++ t) ∈ st.tag_dict
        · rw [if_pos hd]
          exact Or.inl rfl
        · rw [if_neg hd]
          exact Or.inr ⟨_, rfl⟩
      · rw [if_neg hv]
        exact Or.inl rfl

theorem wpmStep_tag_dict (ck : String) (s : Session) (st : WpmSt) (t : String) :
    (wpmStep ck s st t).tag_dict = st.tag_dict ∨
    (wpmStep ck s st t).tag_dict = st.tag_dict ++ [ck ++ t] := by
  cases ha : dictGet s.tagAttrs t with
  | none => simp only [wpmStep, ha]; exact Or.inl trivial
  | some v =>
      simp only [wpmStep, ha]
      by_cases hv : truthyS v = true
      · rw [if_pos hv]
        by_cases hd : (ck ++ t) ∈ st.tag_dict
        · rw [if_pos hd]
          exact Or.inl rfl
        · rw [if_neg hd]
          exact Or.inr rfl
      · rw [if_neg hv]
        exact Or.inl rfl

theorem wpmStep_i (ck : String) (s : Session) (st : WpmSt) (t : String) :
    (wpmStep ck s st t).i =
      st.i - (if attrTruthy s t then 1 else 0) := by
  cases ha : dictGet s.tagAttrs t with
  | none => simp [wpmStep, attrTruthy, ha]
  | some v =>
      simp only [wpmStep, attrTruthy, ha]
      by_cases hv : truthyS v = true
      · rw [if_pos hv, if_pos hv]
        by_cases hd : (ck ++ t) ∈ st.tag_dict
        · rw [if_pos hd]
        · rw [if_neg hd]
      · rw [if_neg hv, if_neg hv]
        simp

theorem wpm_lines_mono (ck : String) (s : Session) (tl : List String)
    (st : WpmSt) (line : String) (h : line ∈ st.lines) :
    line ∈ (tl.foldl (wpmStep ck s) st).lines := by
  refine foldl_preserves _ (fun x : WpmSt => line ∈ x.lines) tl st ?_ h
  intro x t _ hx
  rcases wpmStep_lines ck s x t with he | ⟨l, he⟩
  · rw [he]; exact hx
  · rw [he]; exact List.mem_append_left _ hx

theorem wpmFold_spec (ck : String) (s : Session) :
    ∀ (tl : List String) (st : WpmSt) (j : Nat) (v : String),
      j < tl.length →
      dictGet s.tagAttrs (tl.getD j "") = some v → truthyS v = true →
      (ck ++ tl.getD j "") ∉ st.tag_dict →
      tl.getD j "" ∉ tl.take j →
      wpmLine ck (tl.getD j "") v
          (st.i - (tl.take j).countP (attrTruthy s)) ∈
        (tl.foldl (wpmStep ck s) st).lines := by
  intro tl
  induction tl with
  | nil => intro st j v hj; simp at hj
  | cons t ts ih =>
      intro st j v hj hv hvt hfresh hnodup
      cases j with
      | zero =>
          simp only [List.getD_cons_zero] at hv hvt hfresh ⊢
          simp only [List.take_zero, List.countP_nil, Nat.sub_zero]
          have hstep : (wpmStep ck s st t).lines =
              st.lines ++ [wpmLine ck t v st.i] := by
            simp only [wpmStep, hv, if_pos hvt, if_neg hfresh]
          rw [List.foldl_cons]
          refine wpm_lines_mono ck s ts _ _ ?_
          rw [hstep]
          exact List.mem_append_right _ (List.mem_singleton.mpr rfl)
      | succ n =>
          have hj' : n < ts.length := by simpa using hj
          simp only [List.getD_cons_succ] at hv hvt hfresh hnodup ⊢
          simp only [List.take_succ_cons] at hnodup ⊢
          have hne : ts.getD n "" ≠ t := by
            intro e
            exact hnodup (e ▸ List.mem_cons_self t (ts.take n))
          have hnod' : ts.getD n "" ∉ ts.take n :=
            fun e => hnodup (List.mem_cons_of_mem t e)
          have htd : (ck ++ ts.getD n "") ∉ (wpmStep ck s st t).tag_dict := by
            rcases wpmStep_tag_dict ck s st t with he | he
            · rw [he]; exact hfresh
            · rw [he]
              intro hc
              rcases List.mem_append.mp hc with hc | hc
              · exact hfresh hc
              · exact strApp_left_ne hne (List.mem_singleton.mp hc)
          have hres := ih (wpmStep ck s st t) n v hj' hv hvt htd hnod'
          rw [List.foldl_cons]
          have hw : (wpmStep ck s st t).i - (ts.take n).countP (attrTruthy s) =
              st.i - ((t :: ts.take n).countP (attrTruthy s)) := by
            rw [wpmStep_i, List.countP_cons]
            by_cases ht : attrTruthy s t = true
            · simp [ht]
              omega
            · simp [ht]
          rw [hw] at hres
          exact hres

/-- Claim C8 (amended): the weight counter starts at the length of the
configured tag list and decrements once per tag whose attribute is present
and truthy (absent or falsy tags do not consume a weight).  A tag at
position `j` that is present, truthy, not deduplicated and not a repeat of
an earlier tag name is emitted with weight
`len(tag_list) - (number of earlier present truthy tags)`; consequently
earlier-configured present tags always carry strictly higher weights than
later ones. -/
theorem c8_amended (s : Session) (td : List String) (tl : List String)
    (j : Nat) (v : String) (hj : j < tl.length)
    (hv : dictGet s.tagAttrs (tl.getD j "") = some v)
    (hvt : truthyS v = true)
    (hfresh : (toolConceptKey s ++ tl.getD j "") ∉ td)
    (hnodup : tl.getD j "" ∉ tl.take j) :
    (wpmLine (toolConceptKey s) (tl.getD j "") v
        (tl.length - (tl.take j).countP (attrTruthy s)) ∈
      (write_project_metadata s td tl).2.2) ∧
    ∀ i1 i2, i1 < i2 → i2 < tl.length →
      attrTruthy s (tl.getD i1 "") = true →
      tl.length - (tl.take i2).countP (attrTruthy s) <
        tl.length - (tl.take i1).countP (attrTruthy s) := by
  constructor
  · exact wpmFold_spec (toolConceptKey s) s tl ⟨tl.length, td, []⟩ j v hj hv
      hvt hfresh hnodup
  · intro i1 i2 h12 h2len htr
    have hi1len : i1 < tl.length := Nat.lt_trans h12 h2len
    have hc2 : (tl.take i2).countP (attrTruthy s) ≤ tl.length :=
      le_trans (List.countP_le_length _) (by
        rw [List.length_take]
        omega)
    have hsucc : (tl.take (i1 + 1)).countP (attrTruthy s) =
        (tl.take i1).countP (attrTruthy s) + 1 := by
      rw [take_succ_getD tl i1 hi1len, List.countP_append, List.countP_cons,
        List.countP_nil, htr]
      simp
    obtain ⟨mid, hmid⟩ := take_prefix_of_le (show i1 + 1 ≤ i2 from h12)
    have hc2eq : (tl.take i2).countP (attrTruthy s) =
        (tl.take (i1 + 1)).countP (attrTruthy s) +
          mid.countP (attrTruthy s) := by
      rw [← hmid, List.countP_append]
    omega

/-- Witness for C8 (amended) at the concrete counterexample input: with
tag list `["a", "b"]` and the first tag absent, the second tag's line is
emitted with weight `2 - 0 = 2`. -/
theorem c8_amended_witness :
    (wpmLine (toolConceptKey c8Session) ((["a", "b"] : List String).getD 1 "")
        "v" ((["a", "b"] : List String).length -
          ((["a", "b"] : List String).take 1).countP (attrTruthy c8Session)) ∈
      (write_project_metadata c8Session [] ["a", "b"]).2.2) ∧
    ∀ i1 i2, i1 < i2 → i2 < (["a", "b"] : List String).length →
      attrTruthy c8Session ((["a", "b"] : List String).getD i1 "") = true →
      (["a", "b"] : List String).length -
          ((["a", "b"] : List String).take i2).countP (attrTruthy c8Session) <
        (["a", "b"] : List String).length -
          ((["a", "b"] : List String).take i1).countP (attrTruthy c8Session) :=
  c8_amended c8Session [] ["a", "b"] 1 "v" (by decide) (by decide) (by decide)
    (by decide) (by decide)

/-! ### Tabular Emitter lemmas (towards C7) -/

theorem strAppend_empty (s : String) : s ++ "" = s := by
  have : (s ++ "").data = s.data := by simp [String.data_append]
  exact String.ext this

theorem pyJoin_empty_cons (x : String) (xs : List String) :
    pyJoin "" (x :: xs) = x ++ pyJoin "" xs := by
  cases xs with
  | nil => exact (strAppend_empty x).symm
  | cons y ys =>
      show x ++ "" ++ pyJoin "" (y :: ys) = x ++ pyJoin "" (y :: ys)
      rw [strAppend_empty x]

theorem getD_mem_of_lt :
    ∀ (l : List String) (n : Nat), n < l.length → l.getD n "" ∈ l := by
  intro l
  induction l with
  | nil => intro n h; simp at h
  | cons a t ih =>
      intro n h
      cases n with
      | zero => simp
      | succ m => exact List.mem_cons_of_mem a (ih m (by simpa using h))

theorem pyReplaceChar_append (a b : String) (c d : Char) :
    pyReplaceChar (a ++ b) c d = pyReplaceChar a c d ++ pyReplaceChar b c d := by
  apply String.ext
  simp [pyReplaceChar, String.data_append]

theorem pyReplaceChar_of_not_mem (s : String) (c d : Char)
    (h : ¬ c ∈ s.data) : pyReplaceChar s c d = s := by
  apply String.ext
  show (s.data.map _) = s.data
  rw [List.map_congr_left, List.map_id]
  intro a ha
  simp only [id]
  rw [if_neg]
  intro e
  exact h (e ▸ ha)

theorem pyReplaceChar_tab : pyReplaceChar "\t" '\t' '\n' = "\n" := by
  decide

theorem listIdx_getD_nodup :
    ∀ (l : List String), l.Nodup → ∀ k, k < l.length →
      listIdx (l.getD k "") l = k := by
  intro l
  induction l with
  | nil => intro _ k hk; simp at hk
  | cons a t ih =>
      intro hn k hk
      cases k with
      | zero => simp [listIdx]
      | succ n =>
          have hnt : t.Nodup := (List.nodup_cons.mp hn).2
          have hna : a ∉ t := (List.nodup_cons.mp hn).1
          have hlen : n < t.length := by simpa using hk
          rw [List.getD_cons_succ]
          show (if a = t.getD n "" then 0 else listIdx (t.getD n "") t + 1) = n + 1
          rw [if_neg, ih hnt n hlen]
          intro e
          exact hna (e ▸ getD_mem_of_lt t n hlen)

theorem get?_set' {α : Type} :
    ∀ (l : List α) (i j : Nat) (a : α),
      (l.set i a).get? j =
        if i = j ∧ j < l.length then some a else l.get? j := by
  intro l
  induction l with
  | nil => intro i j a; simp [List.set]
  | cons x t ih =>
      intro i j a
      cases i with
      | zero =>
          cases j with
          | zero => simp
          | succ m => simp
      | succ n =>
          cases j with
          | zero => simp
          | succ m =>
              show (t.set n a).get? m = _
              rw [ih n m a]
              have hgs : (x :: t).get? (m + 1) = t.get? m := rfl
              by_cases hp : n = m ∧ m < t.length
              · rw [if_pos hp, if_pos ⟨by rw [hp.1], Nat.succ_lt_succ hp.2⟩]
              · rw [if_neg hp, if_neg (fun hc => hp ⟨Nat.succ_injective hc.1,
                  Nat.lt_of_succ_lt_succ hc.2⟩), hgs]

theorem wdInnerStep_cells_length (fname : String) (hdr : List String)
    (row : List (String × String)) (a : WdInner) (h : String) :
    (wdInnerStep fname hdr row a h).cells.length = a.cells.length := by
  cases hd : dictGet row h with
  | none => simp [wdInnerStep, hd]
  | some v =>
      simp only [wdInnerStep, hd]
      by_cases h1 : h = "subject" ∧ a.subject_written = false
      · rw [if_pos h1]
        simp
      · rw [if_neg h1]
        by_cases h2 : h ∉ a.column_list
        · rw [if_pos h2]
          simp
        · rw [if_neg h2]
          simp

theorem wdInnerStep_char (fname : String) (hdr : List String)
    (row : List (String × String)) (a : WdInner) (h : String) (v : String)
    (hd : dictGet row h = some v)
    (hsw : a.subject_written = decide ("subject" ∈ a.column_list)) :
    wdInnerStep fname hdr row a h =
      ⟨a.cells.set (listIdx h hdr) (v ++ "\t"),
       a.column_list ++ (if h ∈ a.column_list then [] else [h]),
       decide ("subject" ∈
         a.column_list ++ (if h ∈ a.column_list then [] else [h])),
       a.concept_out ++
         (if h ∈ a.column_list then []
          else [clineFor fname hdr h])⟩ := by
  simp only [wdInnerStep, hd]
  by_cases hsubj : h = "subject"
  · subst hsubj
    by_cases hmem : "subject" ∈ a.column_list
    · have hswt : a.subject_written = true := by
        rw [hsw]; simpa using hmem
      rw [if_neg (by simp [hswt]), if_neg (by simpa using hmem)]
      simp [hswt, hmem]
    · have hswf : a.subject_written = false := by
        rw [hsw]; simpa using hmem
      rw [if_pos ⟨rfl, hswf⟩]
      simp [hmem, clineFor]
  · rw [if_neg (by simp [hsubj])]
    by_cases hmem : h ∈ a.column_list
    · rw [if_neg (by simpa using hmem), hsw]
      simp [hmem]
    · rw [if_pos hmem]
      simp only [if_neg hmem, WdInner.mk.injEq]
      refine ⟨trivial, trivial, ?_, ?_⟩
      · rw [hsw]
        apply decide_eq_decide.mpr
        constructor
        · exact fun hm => List.mem_append_left _ hm
        · intro hm
          rcases List.mem_append.mp hm with hm | hm
          · exact hm
          · exact absurd (List.mem_singleton.mp hm).symm hsubj
      · simp [clineFor, hsubj, catCode, dataLabel]

theorem strAppend_assoc (a b c : String) : a ++ b ++ c = a ++ (b ++ c) := by
  apply String.ext
  simp [String.data_append]

theorem set_append_length {α : Type} :
    ∀ (l : List α) (x : α) (r : List α) (y : α),
      (l ++ x :: r).set l.length y = l ++ y :: r := by
  intro l
  induction l with
  | nil => intro x r y; rfl
  | cons a t ih =>
      intro x r y
      show a :: (t ++ x :: r).set t.length y = a :: (t ++ y :: r)
      rw [ih x r y]

theorem getLastD_map_ne_nil :
    ∀ (l : List String) (f : String → String), l ≠ [] →
      (l.map f).getLast? = some (f (l.getLastD "")) := by
  intro l
  induction l with
  | nil => intro f h; exact absurd rfl h
  | cons x t ih =>
      intro f _
      cases t with
      | nil => rfl
      | cons y u =>
          show ((f x) :: (f y) :: u.map f).getLast? = _
          rw [List.getLast?_cons_cons]
          show ((y :: u).map f).getLast? = _
          rw [ih f (by simp)]
          simp [List.getLastD_cons]

theorem dictGet_mem {α : Type} :
    ∀ (l : List (String × α)) (k : String) (v : α),
      dictGet l k = some v → (k, v) ∈ l := by
  intro l
  induction l with
  | nil => intro k v h; simp [dictGet] at h
  | cons p t ih =>
      intro k v h
      rw [show dictGet (p :: t) k =
        (if p.1 = k then some p.2 else dictGet t k) from rfl] at h
      by_cases hk : p.1 = k
      · rw [if_pos hk] at h
        apply List.mem_cons.mpr
        left
        obtain ⟨p1, p2⟩ := p
        cases hk
        simp only [] at h ⊢
        rw [Option.some_inj.mp h]
      · rw [if_neg hk] at h
        exact List.mem_cons_of_mem p (ih k v h)

theorem wdInnerStep_none (fname : String) (hdr : List String)
    (row : List (String × String)) (a : WdInner) (h : String)
    (hd : dictGet row h = none) :
    wdInnerStep fname hdr row a h = a := by
  simp [wdInnerStep, hd]

theorem wdInnerStep_cells (fname : String) (hdr : List String)
    (row : List (String × String)) (a : WdInner) (h : String) (v : String)
    (hd : dictGet row h = some v) :
    (wdInnerStep fname hdr row a h).cells =
      a.cells.set (listIdx h hdr) (v ++ "\t") := by
  simp only [wdInnerStep, hd]
  split
  · rfl
  · split
    · rfl
    · rfl

theorem wdEmits_cons_none (row : List (String × String)) (cl : List String)
    (h : String) (t : List String) (hd : dictGet row h = none) :
    wdEmits row cl (h :: t) = wdEmits row cl t := by
  simp [wdEmits, hd]

theorem wdEmits_congr (row : List (String × String)) (cl cl' : List String)
    (t : List String) (hmm : ∀ x ∈ t, x ∈ cl' ↔ x ∈ cl) :
    wdEmits row cl' t = wdEmits row cl t := by
  unfold wdEmits
  apply List.filter_congr
  intro x hx
  have := hmm x hx
  by_cases hc : x ∈ cl
  · simp [hc, this.mpr hc]
  · simp only [hc, decide_False]
    have hcl : x ∉ cl' := fun hm => hc (this.mp hm)
    simp [hcl]

theorem wdInner_emits (fname : String) (hdr : List String)
    (row : List (String × String)) :
    ∀ (iter : List String) (a : WdInner), iter.Nodup →
      a.subject_written = decide ("subject" ∈ a.column_list) →
      (iter.foldl (wdInnerStep fname hdr row) a).column_list =
          a.column_list ++ wdEmits row a.column_list iter ∧
      (iter.foldl (wdInnerStep fname hdr row) a).subject_written =
          decide ("subject" ∈
            (iter.foldl (wdInnerStep fname hdr row) a).column_list) ∧
      (iter.foldl (wdInnerStep fname hdr row) a).concept_out =
          a.concept_out ++
            (wdEmits row a.column_list iter).map (clineFor fname hdr) := by
  intro iter
  induction iter with
  | nil =>
      intro a _ hsw
      refine ⟨by simp [wdEmits], hsw, by simp [wdEmits]⟩
  | cons h t ih =>
      intro a hn hsw
      have hnt : t.Nodup := (List.nodup_cons.mp hn).2
      have hht : h ∉ t := (List.nodup_cons.mp hn).1
      cases hd : dictGet row h with
      | none =>
          rw [List.foldl_cons, wdInnerStep_none fname hdr row a h hd,
            wdEmits_cons_none row a.column_list h t hd]
          exact ih a hnt hsw
      | some v =>
          have hstep := wdInnerStep_char fname hdr row a h v hd hsw
          by_cases hmem : h ∈ a.column_list
          · simp only [if_pos hmem, List.append_nil] at hstep
            have hE : wdEmits row a.column_list (h :: t) =
                wdEmits row a.column_list t := by
              simp [wdEmits, hd, hmem]
            rw [List.foldl_cons, hstep, hE]
            exact ih _ hnt rfl
          · simp only [if_neg hmem] at hstep
            have hE : wdEmits row a.column_list (h :: t) =
                h :: wdEmits row a.column_list t := by
              simp [wdEmits, hd, hmem]
            have hfe : wdEmits row (a.column_list ++ [h]) t =
                wdEmits row a.column_list t := by
              apply wdEmits_congr
              intro x hx
              have hxh : ¬ x = h := fun e => hht (e ▸ hx)
              constructor
              · intro hm
                rcases List.mem_append.mp hm with hm | hm
                · exact hm
                · exact absurd (List.mem_singleton.mp hm) hxh
              · exact fun hm => List.mem_append_left _ hm
            rw [List.foldl_cons, hstep, hE]
            obtain ⟨h1, h2, h3⟩ := ih
              ⟨a.cells.set (listIdx h hdr) (v ++ "\t"), a.column_list ++ [h],
               decide ("subject" ∈ a.column_list ++ [h]),
               a.concept_out ++ [clineFor fname hdr h]⟩ hnt rfl
            refine ⟨?_, h2, ?_⟩
            · rw [h1]
              show a.column_list ++ [h] ++
                wdEmits row (a.column_list ++ [h]) t = _
              rw [hfe, List.append_assoc, List.singleton_append]
            · rw [h3]
              show a.concept_out ++ [clineFor fname hdr h] ++
                (wdEmits row (a.column_list ++ [h]) t).map
                  (clineFor fname hdr) = _
              rw [hfe, List.append_assoc, List.singleton_append, List.map_cons]

theorem wdInner_cells (fname : String) (hdr : List String)
    (row : List (String × String)) (hnd : hdr.Nodup) :
    ∀ (iter pre : List String) (a : WdInner),
      hdr = pre ++ iter →
      a.cells = pre.map (fun h => (dictGet row h).getD "" ++ "\t") ++
        iter.map (fun _ => "\t") →
      (iter.foldl (wdInnerStep fname hdr row) a).cells =
        hdr.map (fun h => (dictGet row h).getD "" ++ "\t") := by
  intro iter
  induction iter with
  | nil =>
      intro pre a hsplit hcells
      rw [List.foldl_nil, hcells, hsplit]
      simp
  | cons h t ih =>
      intro pre a hsplit hcells
      cases hd : dictGet row h with
      | none =>
          rw [List.foldl_cons, wdInnerStep_none fname hdr row a h hd]
          apply ih (pre ++ [h])
          · rw [hsplit, List.append_assoc, List.singleton_append]
          · rw [hcells, List.map_append, List.append_assoc]
            show _ = _ ++ ([(dictGet row h).getD "" ++ "\t"] ++ _)
            rw [hd]
            rfl
      | some v =>
          have hnp : h ∉ pre := by
            rw [hsplit, List.nodup_append] at hnd
            intro hp
            exact hnd.2.2 hp (List.mem_cons_self h t)
          have hidx : listIdx h hdr = pre.length := by
            rw [hsplit, listIdx_append_right (h :: t) hnp]
            simp [listIdx]
          rw [List.foldl_cons]
          apply ih (pre ++ [h])
          · rw [hsplit, List.append_assoc, List.singleton_append]
          · rw [wdInnerStep_cells fname hdr row a h v hd, hcells, hidx]
            rw [show (h :: t).map (fun _ => "\t") =
              "\t" :: t.map (fun _ => "\t") from rfl]
            rw [show pre.length =
              (pre.map (fun h => (dictGet row h).getD "" ++ "\t")).length by
                simp]
            rw [set_append_length, List.map_append, List.append_assoc]
            show _ = _ ++ ([(dictGet row h).getD "" ++ "\t"] ++ _)
            rw [hd]
            rfl

theorem pyJoin_render :
    ∀ (fields : List String) (x : String),
      pyJoin "" (((x :: fields).map (fun f => f ++ "\t")).dropLast ++
          [(x :: fields).getLastD "" ++ "\n"]) =
        pyJoin "\t" (x :: fields) ++ "\n" := by
  intro fields
  induction fields with
  | nil => intro x; rfl
  | cons y t ih =>
      intro x
      rw [show ((x :: y :: t).map (fun f => f ++ "\t")) =
        (x ++ "\t") :: (y ++ "\t") :: (t.map (fun f => f ++ "\t")) from rfl]
      rw [List.dropLast_cons₂, List.cons_append, pyJoin_empty_cons]
      rw [show ((y ++ "\t") :: t.map (fun f => f ++ "\t")) =
        (y :: t).map (fun f => f ++ "\t") from rfl]
      rw [List.getLastD_cons, show (y :: t).getLastD x = (y :: t).getLastD ""
        by rw [List.getLastD_cons, List.getLastD_cons]]
      rw [ih y]
      rw [show pyJoin "\t" (x :: y :: t) =
        x ++ "\t" ++ pyJoin "\t" (y :: t) from rfl]
      exact (strAppend_assoc (x ++ "\t") (pyJoin "\t" (y :: t)) "\n").symm

theorem wdRow_char (fname : String) (hdr : List String)
    (row : List (String × String)) (st : WdOuter)
    (hne : hdr ≠ []) (hnd : hdr.Nodup)
    (hsw : st.subject_written = decide ("subject" ∈ st.column_list))
    (htab : ¬ '\t' ∈ ((dictGet row (hdr.getLastD "")).getD "").data) :
    wdRow fname hdr st row = .ok
      ⟨st.column_list ++ wdEmits row st.column_list hdr,
       decide ("subject" ∈ st.column_list ++ wdEmits row st.column_list hdr),
       st.data_out ++ [rowLineOf hdr row],
       st.concept_out ++
         (wdEmits row st.column_list hdr).map (clineFor fname hdr)⟩ := by
  obtain ⟨hcl, hsw2, hout⟩ := wdInner_emits fname hdr row hdr
    ⟨hdr.map (fun _ => "\t"), st.column_list, st.subject_written, []⟩ hnd hsw
  have hcells := wdInner_cells fname hdr row hnd hdr []
    ⟨hdr.map (fun _ => "\t"), st.column_list, st.subject_written, []⟩ rfl
    (by simp)
  have hrep : pyReplaceChar ((dictGet row (hdr.getLastD "")).getD "" ++ "\t")
      '\t' '\n' = (dictGet row (hdr.getLastD "")).getD "" ++ "\n" := by
    rw [pyReplaceChar_append, pyReplaceChar_of_not_mem _ _ _ htab,
      pyReplaceChar_tab]
  have hlastq : (hdr.map (fun h => (dictGet row h).getD "" ++ "\t")).getLast? =
      some ((dictGet row (hdr.getLastD "")).getD "" ++ "\t") :=
    getLastD_map_ne_nil hdr _ hne
  have hjoin : pyJoin ""
      ((List.map (fun h => (dictGet row h).getD "" ++ "\t") hdr).dropLast ++
        [(dictGet row (hdr.getLastD "")).getD "" ++ "\n"]) =
      rowLineOf hdr row := by
    cases hdr with
    | nil => exact absurd rfl hne
    | cons x hs =>
        have h0 := pyJoin_render (hs.map (fun h => (dictGet row h).getD ""))
          ((dictGet row x).getD "")
        rw [show ((dictGet row x).getD "" ::
            hs.map (fun h => (dictGet row h).getD "")) =
          (x :: hs).map (fun h => (dictGet row h).getD "") from rfl] at h0
        rw [List.map_map] at h0
        have hl : ((x :: hs).map (fun h => (dictGet row h).getD "")).getLastD
            "" = (dictGet row ((x :: hs).getLastD "")).getD "" := by
          rw [List.getLastD_eq_getLast?,
            getLastD_map_ne_nil (x :: hs) _ (by simp)]
          rfl
        rw [hl] at h0
        exact h0
  simp only [wdRow]
  rw [hcells, hlastq]
  simp only []
  rw [hrep, hsw2, hcl, hout, hjoin]
  rfl

theorem wd_outer_char (fname : String) (hdr : List String)
    (hne : hdr ≠ []) (hnd : hdr.Nodup) :
    ∀ (rows : List (List (String × String))) (st : WdOuter),
      st.subject_written = decide ("subject" ∈ st.column_list) →
      (∀ r ∈ rows, ¬ '\t' ∈ ((dictGet r (hdr.getLastD "")).getD "").data) →
      exceptFoldl (wdRow fname hdr) st rows = .ok
        ⟨wdCols hdr st.column_list rows,
         decide ("subject" ∈ wdCols hdr st.column_list rows),
         st.data_out ++ rows.map (rowLineOf hdr),
         st.concept_out ++ wdConceptRows fname hdr st.column_list rows⟩ := by
  intro rows
  induction rows with
  | nil =>
      intro st hsw _
      obtain ⟨cl, sw, dl, cl2⟩ := st
      simp only [] at hsw
      simp only [exceptFoldl, wdCols, wdConceptRows, List.map_nil,
        List.append_nil]
      rw [hsw]
  | cons r rest ih =>
      intro st hsw htab
      have hstep := wdRow_char fname hdr r st hne hnd hsw
        (htab r (List.mem_cons_self r rest))
      simp only [exceptFoldl]
      rw [hstep]
      show exceptFoldl (wdRow fname hdr)
          ⟨st.column_list ++ wdEmits r st.column_list hdr,
           decide ("subject" ∈
             st.column_list ++ wdEmits r st.column_list hdr),
           st.data_out ++ [rowLineOf hdr r],
           st.concept_out ++
             (wdEmits r st.column_list hdr).map (clineFor fname hdr)⟩
          rest = _
      have hrec := ih
        ⟨st.column_list ++ wdEmits r st.column_list hdr,
         decide ("subject" ∈ st.column_list ++ wdEmits r st.column_list hdr),
         st.data_out ++ [rowLineOf hdr r],
         st.concept_out ++
           (wdEmits r st.column_list hdr).map (clineFor fname hdr)⟩
        rfl (fun r' hr' => htab r' (List.mem_cons_of_mem r hr'))
      rw [hrec]
      rw [show wdCols hdr st.column_list (r :: rest) =
        wdCols hdr (st.column_list ++ wdEmits r st.column_list hdr) rest
        from rfl]
      rw [show wdConceptRows fname hdr st.column_list (r :: rest) =
        (wdEmits r st.column_list hdr).map (clineFor fname hdr) ++
          wdConceptRows fname hdr
            (st.column_list ++ wdEmits r st.column_list hdr) rest from rfl]
      rw [List.map_cons, List.append_assoc, List.singleton_append,
        List.append_assoc]

theorem firstRowAt_cons_some (r : List (String × String))
    (rest : List (List (String × String))) (h : String)
    (hs : (dictGet r h).isSome = true) :
    firstRowAt (r :: rest) h = 0 := by
  simp [firstRowAt, hs]

theorem firstRowAt_cons_none (r : List (String × String))
    (rest : List (List (String × String))) (h : String)
    (hs : (dictGet r h).isSome = false) :
    firstRowAt (r :: rest) h = firstRowAt rest h + 1 := by
  simp [firstRowAt, hs]

theorem mem_wdEmits (row : List (String × String)) (cl : List String)
    (iter : List String) (h : String) :
    h ∈ wdEmits row cl iter ↔
      h ∈ iter ∧ (dictGet row h).isSome = true ∧ h ∉ cl := by
  unfold wdEmits
  rw [List.mem_filter]
  constructor
  · intro ⟨h1, h2⟩
    have h3 := (Bool.and_eq_true _ _).mp h2
    exact ⟨h1, h3.1, of_decide_eq_true h3.2⟩
  · intro ⟨h1, h2, h3⟩
    exact ⟨h1, (Bool.and_eq_true _ _).mpr ⟨h2, decide_eq_true h3⟩⟩

theorem wdConceptRows_blocks (fname : String) (hdr : List String) :
    ∀ (rows : List (List (String × String))) (cl : List String),
      wdConceptRows fname hdr cl rows =
        (((List.range rows.length).map (fun k =>
            hdr.filter (fun h =>
              decide (h ∉ cl) && decide (firstRowAt rows h = k)))).flatten).map
          (clineFor fname hdr) := by
  intro rows
  induction rows with
  | nil => intro cl; simp [wdConceptRows]
  | cons r rest ih =>
      intro cl
      show (wdEmits r cl hdr).map (clineFor fname hdr) ++
          wdConceptRows fname hdr (cl ++ wdEmits r cl hdr) rest = _
      rw [ih (cl ++ wdEmits r cl hdr)]
      rw [show (r :: rest).length = rest.length + 1 from rfl,
        List.range_succ_eq_map, List.map_cons, List.flatten_cons,
        List.map_append, List.map_map]
      have hblock0 : wdEmits r cl hdr =
          hdr.filter (fun h =>
            decide (h ∉ cl) && decide (firstRowAt (r :: rest) h = 0)) := by
        unfold wdEmits
        apply List.filter_congr
        intro x _
        cases hs : (dictGet r x).isSome with
        | true =>
            rw [firstRowAt_cons_some r rest x hs]
            simp [Bool.and_comm]
        | false =>
            rw [firstRowAt_cons_none r rest x hs]
            simp
      have hblocks : (List.range rest.length).map (fun k =>
          hdr.filter (fun h =>
            decide (h ∉ cl ++ wdEmits r cl hdr) &&
              decide (firstRowAt rest h = k))) =
          (List.range rest.length).map ((fun k =>
            hdr.filter (fun h =>
              decide (h ∉ cl) && decide (firstRowAt (r :: rest) h = k))) ∘
            Nat.succ) := by
        apply List.map_congr_left
        intro k _
        show _ = hdr.filter (fun h =>
          decide (h ∉ cl) && decide (firstRowAt (r :: rest) h = k + 1))
        apply List.filter_congr
        intro x hx
        cases hs : (dictGet r x).isSome with
        | true =>
            rw [firstRowAt_cons_some r rest x hs]
            have hxe : x ∉ cl → x ∈ cl ++ wdEmits r cl hdr := fun hc =>
              List.mem_append_right _
                ((mem_wdEmits r cl hdr x).mpr ⟨hx, hs, hc⟩)
            by_cases hc : x ∈ cl
            · simp [hc, List.mem_append_left _ hc]
            · simp [hc, hxe hc]
        | false =>
            rw [firstRowAt_cons_none r rest x hs]
            have hxe : x ∉ wdEmits r cl hdr := fun he =>
              by simpa [hs] using ((mem_wdEmits r cl hdr x).mp he).2.1
            have hmm : x ∈ cl ++ wdEmits r cl hdr ↔ x ∈ cl := by
              constructor
              · intro hm
                rcases List.mem_append.mp hm with hm | hm
                · exact hm
                · exact absurd hm hxe
              · exact fun hm => List.mem_append_left _ hm
            by_cases hc : x ∈ cl
            · simp [hc, hmm.mpr hc]
            · simp [hc, fun hm => hc (hmm.mp hm), Nat.succ_inj]
              exact fun _ => hxe
      rw [hblocks, hblock0]

theorem filter_blocks_split (f : String → Nat) (n : Nat) :
    ∀ l : List String, l.Pairwise (fun a b => f a ≤ f b) →
      (∀ h ∈ l, f h < n + 1) →
      l = l.filter (fun h => decide (f h < n)) ++
        l.filter (fun h => decide (f h = n)) := by
  intro l
  induction l with
  | nil => intro _ _; rfl
  | cons h t ih =>
      intro hp hb
      have hpt : t.Pairwise (fun a b => f a ≤ f b) :=
        (List.pairwise_cons.mp hp).2
      have hhd : ∀ x ∈ t, f h ≤ f x := (List.pairwise_cons.mp hp).1
      by_cases hfn : f h = n
      · have htall : ∀ x ∈ t, f x = n := fun x hx =>
          Nat.le_antisymm (Nat.lt_succ_iff.mp (hb x (List.mem_cons_of_mem h hx)))
            (hfn ▸ hhd x hx)
        have h1 : (h :: t).filter (fun h' => decide (f h' < n)) = [] := by
          rw [List.filter_eq_nil_iff]
          intro x hx
          rcases List.mem_cons.mp hx with hx | hx
          · simp [hx, hfn]
          · simp [htall x hx]
        have h2 : (h :: t).filter (fun h' => decide (f h' = n)) = h :: t := by
          rw [List.filter_eq_self]
          intro x hx
          rcases List.mem_cons.mp hx with hx | hx
          · simp [hx, hfn]
          · simp [htall x hx]
        rw [h1, h2, List.nil_append]
      · have hfl : f h < n :=
          Nat.lt_of_le_of_ne (Nat.lt_succ_iff.mp
            (hb h (List.mem_cons_self h t))) hfn
        rw [List.filter_cons_of_pos (by simpa using hfl),
          List.filter_cons_of_neg (by simpa using hfn), List.cons_append]
        exact congrArg (h :: ·)
          (ih hpt (fun x hx => hb x (List.mem_cons_of_mem h hx)))

theorem blocks_join (f : String → Nat) :
    ∀ (n : Nat) (l : List String), l.Pairwise (fun a b => f a ≤ f b) →
      (∀ h ∈ l, f h < n) →
      ((List.range n).map (fun k =>
          l.filter (fun h => decide (f h = k)))).flatten = l := by
  intro n
  induction n with
  | zero =>
      intro l _ hb
      cases l with
      | nil => rfl
      | cons h t => exact absurd (hb h (List.mem_cons_self h t)) (Nat.not_lt_zero _)
  | succ n ih =>
      intro l hp hb
      rw [List.range_succ, List.map_append, List.flatten_append]
      have hfilters : (List.range n).map (fun k =>
          l.filter (fun h => decide (f h = k))) =
          (List.range n).map (fun k =>
            (l.filter (fun h => decide (f h < n))).filter
              (fun h => decide (f h = k))) := by
        apply List.map_congr_left
        intro k hk
        have hkn : k < n := List.mem_range.mp hk
        rw [List.filter_filter]
        apply List.filter_congr
        intro x _
        by_cases hfx : f x = k
        · simp [hfx, hkn]
        · simp [hfx]
      rw [hfilters, ih (l.filter (fun h => decide (f h < n)))
        (List.Pairwise.sublist (List.filter_sublist l) hp)
        (fun x hx => by simpa using (List.mem_filter.mp hx).2)]
      show l.filter (fun h => decide (f h < n)) ++
        (l.filter (fun h => decide (f h = n)) ++ List.flatten []) = l
      rw [List.flatten_nil, List.append_nil]
      exact (filter_blocks_split f n l hp hb).symm

/-- Claim C7: given the final header list and data rows, `write_data`
writes one tab-joined header line and then one line per data row, each
line carrying one field per header (in header order, the empty string for
a header the row lacks, so every data line has `len(HeaderList)` fields),
and the column-definition file lists each distinct column exactly once,
with its 1-based header-list position as the column number, in
header-list order.  The hypotheses encode the pipeline invariants under
which the emitter is invoked: a nonempty duplicate-free header list
(`obtain_data` builds it as a first-occurrence list and always seeds it
with "subject"), tab-free values, every header observed in some row, and
headers ordered by the row in which they first appear (the header list is
accumulated while the rows are produced). -/
theorem c7_write_data (fname : String) (hdr : List String)
    (rows : List (List (String × String))) (out : List String × List String)
    (hne : hdr ≠ []) (hnd : hdr.Nodup)
    (htab : ∀ r ∈ rows, ∀ p ∈ r, ¬ '\t' ∈ (Prod.snd p).data)
    (hcov : ∀ h ∈ hdr, firstRowAt rows h < rows.length)
    (hmono : hdr.Pairwise (fun a b => firstRowAt rows a ≤ firstRowAt rows b))
    (hok : write_data fname rows hdr = .ok out) :
    out.1 = (pyJoin "\t" hdr ++ "\n") :: rows.map (rowLineOf hdr) ∧
    out.2 = hdr.map (clineFor fname hdr) := by
  have htab2 : ∀ r ∈ rows,
      ¬ '\t' ∈ ((dictGet r (hdr.getLastD "")).getD "").data := by
    intro r hr
    cases hd : dictGet r (hdr.getLastD "") with
    | none => simp
    | some v => exact htab r hr _ (dictGet_mem r _ v hd)
  have houter := wd_outer_char fname hdr hne hnd rows ⟨[], false, [], []⟩
    (by simp) htab2
  simp only [write_data] at hok
  rw [houter] at hok
  have hok2 : Except.ok
      ((pyJoin "\t" hdr ++ "\n") :: ([] ++ rows.map (rowLineOf hdr)),
        ([] : List String) ++ wdConceptRows fname hdr [] rows) =
      Except.ok out := hok
  injection hok2 with hpair
  constructor
  · rw [← hpair]
    show (pyJoin "\t" hdr ++ "\n") ::
      (([] : List String) ++ rows.map (rowLineOf hdr)) = _
    rw [List.nil_append]
  · rw [← hpair]
    show ([] : List String) ++ wdConceptRows fname hdr [] rows = _
    rw [List.nil_append, wdConceptRows_blocks]
    have hsimp : (List.range rows.length).map (fun k =>
        hdr.filter (fun h =>
          decide (h ∉ ([] : List String)) &&
            decide (firstRowAt rows h = k))) =
        (List.range rows.length).map (fun k =>
          hdr.filter (fun h => decide (firstRowAt rows h = k))) := by
      apply List.map_congr_left
      intro k _
      apply List.filter_congr
      intro x _
      simp
    rw [hsimp, blocks_join (firstRowAt rows) rows.length hdr hmono hcov]

/-- Witness for C7 at a concrete input: header list
`["subject", "c\\V1"]` and two rows, the second lacking the biomarker
column.  The data file is the header line, `"s1\t1\n"` and `"s2\t\n"`
(the missing value rendered as the empty field), and the column file
lists the subject column as column 1 and the biomarker column as
column 2, in header order. -/
theorem c7_witness :
    ((["subject\tc\\V1\n", "s1\t1\n", "s2\t\n"],
        ["F\tsubject\t1\tSUBJ_ID\n", "F\tc\t2\tV1\n"]) :
      List String × List String).1 =
      (pyJoin "\t" ["subject", "c\\V1"] ++ "\n") ::
        ([[("subject", "s1"), ("c\\V1", "1")], [("subject", "s2")]]).map
          (rowLineOf ["subject", "c\\V1"]) ∧
    ((["subject\tc\\V1\n", "s1\t1\n", "s2\t\n"],
        ["F\tsubject\t1\tSUBJ_ID\n", "F\tc\t2\tV1\n"]) :
      List String × List String).2 =
      (["subject", "c\\V1"] : List String).map
        (clineFor "F" ["subject", "c\\V1"]) :=
  c7_write_data "F" ["subject", "c\\V1"]
    [[("subject", "s1"), ("c\\V1", "1")], [("subject", "s2")]]
    (["subject\tc\\V1\n", "s1\t1\n", "s2\t\n"],
      ["F\tsubject\t1\tSUBJ_ID\n", "F\tc\t2\tV1\n"])
    (by decide) (by decide) (by decide) (by decide) (by decide) (by decide)
